import Mathlib

/-!
# CVFS: a shallow embedding of `CVFS.cpp`

The global variables `superobj`, `head` (the linked list of inodes) and
`uareaobj.UFDT` become the three fields of one state value `FS`; every core
function takes the state and returns the C return value together with the
new state.

Conventions of the embedding

* C `int` is `Int`; `char` is a `Nat` byte and `0` is the NUL character.
* A `char *` argument is `Option (List Nat)`: `none` is `NULL`, `some p` is the
  bytes found at the pointer, followed by a terminating NUL.  The C string
  it denotes is `cstr p`, the bytes before the first NUL.
* The singly linked list starting at `head` is a `List Inode`; a `PINODE`
  is the position of the inode in that list.
* `uareaobj.UFDT` is a list of `Option FileTable`; `none` is a `NULL` entry.
* `some (r, s)` is a normal return of `r` in state `s`.  A function returns
  `none` where the call does not come back with a result the source fixes:
  the read of `UFDT[MAXOPENFILES]`, one past the array; a `strncpy` whose
  `size_t` count leaves the 50 byte buffer of the file (a negative `size`) or
  that reads from a `NULL` pointer; a `strcpy` of a name of 52 bytes or more,
  which overwrites the member `next` of the inode and with it the linked list
  (or the memory after the inode).
* `struct Inode` is declared under `#pragma pack(1)`: `FileName` lies at the
  bytes 0..19, `InodeNumber` at 20..23, `FileSize` at 24..27 and so on up to
  `Buffer` at 44..51 and `next` at 52..59, with `int` of 32 bits stored lowest
  byte first and pointers of 8 bytes.  `strcpy (FileName, name)` has no check
  of the length, so a name of 20 bytes or more runs on into the members behind
  `FileName`; `createInode` computes what that leaves in the inode.
* The field `FileName` of the model is the C string found at the address of
  the member `FileName`, which is what `strcmp` and `printf` read.
* `malloc` is assumed to succeed.  The indeterminate contents of a freshly
  allocated file buffer are a parameter `junk` of `CreateFile`.
* `printf` calls are output only and are left out.
-/

namespace CVFS

/-! ## Macros -/

abbrev MAXFILESIZE : Nat := 50
abbrev MAXOPENFILES : Nat := 20
abbrev MAXINODE : Nat := 5

abbrev READ : Int := 1
abbrev WRITE : Int := 2

abbrev EXECUTE_SUCCESS : Int := 0
abbrev REGULARFILE : Int := 1

abbrev ERR_INVALID_PARAMETER : Int := -1
abbrev ERR_NO_INODES : Int := -2
abbrev ERR_FILE_ALREADY_EXIST : Int := -3
abbrev ERR_FILE_NOT_EXIST : Int := -4
abbrev ERR_PERMISSION_DENIED : Int := -5
abbrev ERR_INSUFFICIENT_SPACE : Int := -6
abbrev ERR_INSUFFICIENT_DATA : Int := -7
abbrev ERR_MAX_FILES_OPEN : Int := -8

/-- Number of bytes of the member `char FileName[20]` of `struct Inode`. -/
abbrev FILENAMESIZE : Nat := 20

/-- Offset of the member `next` in the packed `struct Inode`: 20 bytes of
`FileName`, six `int` of 4 bytes, and the 8 bytes of the pointer `Buffer`. -/
abbrev NEXTOFFSET : Nat := 52

/-! ## Structures -/

/-- The `struct SuperBlock`. -/
structure SuperBlock where
  TotalInodes : Int
  FreeInodes : Int
  deriving DecidableEq, Repr

/-- The `struct Inode`; `FileName` is the C string found at the member
`FileName`, `Buffer` is `none` for `NULL`, and `next` is the tail of the list
the inode sits in. -/
structure Inode where
  FileName : List Nat
  InodeNumber : Int
  FileSize : Int
  ActualFileSize : Int
  FileType : Int
  ReferenceCount : Int
  Permission : Int
  Buffer : Option (List Nat)
  deriving DecidableEq, Repr

/-- The `struct FileTable`; `ptrinode` is the position of the inode in `head`. -/
structure FileTable where
  ReadOffset : Int
  WriteOffset : Int
  Mode : Int
  ptrinode : Nat
  deriving DecidableEq, Repr

/-- The global state: `superobj`, the list at `head`, and `uareaobj.UFDT`. -/
structure FS where
  superobj : SuperBlock
  head : List Inode
  UFDT : List (Option FileTable)
  deriving DecidableEq, Repr

/-! ## C library functions used by the code -/

/-- The C string at a pointer: the bytes before the first NUL. -/
def cstr (p : List Nat) : List Nat := p.takeWhile (fun c => c != 0)

/-- Conversion of an `int` to `size_t` (64 bit), as happens to the third
argument of `strncpy`. -/
def toSizeT (n : Int) : Nat := (n % (2 ^ 64 : Int)).toNat

/-- The `n` bytes `strncpy (dst, src, n)` writes at `dst`: the string at `src`
cut at `n` bytes, padded with NUL bytes up to `n`. -/
def strncpyBytes (src : List Nat) (n : Nat) : List Nat :=
  (cstr src).take n ++ List.replicate (n - ((cstr src).take n).length) 0

/-- Overwrite the bytes of `mem` from position `off` on with `bytes`. -/
def poke (mem : List Nat) (off : Nat) (bytes : List Nat) : List Nat :=
  mem.take off ++ bytes ++ mem.drop (off + bytes.length)

/-- The four bytes of an `int` in memory, lowest byte first. -/
def le32 (n : Int) : List Nat :=
  [(n % 2 ^ 32).toNat % 256, (n % 2 ^ 32).toNat / 256 % 256,
   (n % 2 ^ 32).toNat / 65536 % 256, (n % 2 ^ 32).toNat / 16777216 % 256]

/-- The `int` that four bytes of memory hold, lowest byte first. -/
def ofLe32 (b : List Nat) : Int :=
  if b.getD 0 0 + 256 * b.getD 1 0 + 65536 * b.getD 2 0 + 16777216 * b.getD 3 0 < 2 ^ 31 then
    ((b.getD 0 0 + 256 * b.getD 1 0 + 65536 * b.getD 2 0 + 16777216 * b.getD 3 0 : Nat) : Int)
  else
    ((b.getD 0 0 + 256 * b.getD 1 0 + 65536 * b.getD 2 0 + 16777216 * b.getD 3 0 : Nat) : Int)
      - 2 ^ 32

/-- The entry `UFDT[i]`, for `i` inside the array. -/
def slot (u : List (Option FileTable)) (i : Nat) : Option FileTable := u.getD i none

/-! ## Boot sequence -/

/-- The inode `CreateDILB` allocates in iteration `i`. -/
def newn (i : Nat) : Inode :=
  { FileName := [], InodeNumber := i, FileSize := 0, ActualFileSize := 0,
    FileType := 0, ReferenceCount := 0, Permission := 0, Buffer := none }

/-- The `InitialiseSuperBlock` function. -/
def InitialiseSuperBlock : SuperBlock :=
  { TotalInodes := MAXINODE, FreeInodes := MAXINODE }

/-- The `CreateDILB` function: inodes `1 .. MAXINODE`, each appended at the tail. -/
def CreateDILB : List Inode := (List.range' 1 MAXINODE).map newn

/-- The `InitialiseUAREA` function: every entry of `UFDT` is `NULL`. -/
def InitialiseUAREA : List (Option FileTable) := List.replicate MAXOPENFILES none

/-- The `StartAuxillaryDataInitialisation` function. -/
def StartAuxillaryDataInitialisation : FS :=
  { superobj := InitialiseSuperBlock, head := CreateDILB, UFDT := InitialiseUAREA }

/-! ## Core operations -/

/-- The `IsFileExist` function. -/
def IsFileExist (s : FS) (name : List Nat) : Bool :=
  s.head.any (fun temp => cstr name == cstr temp.FileName && temp.FileType == REGULARFILE)

/-- The bytes 0..27 of the inode (`FileName`, `InodeNumber`, `FileSize`) after
`strcpy (FileName, name)` and `FileSize = MAXFILESIZE` in `CreateFile`, for an
inode whose number was `number`.  The copy writes the bytes of the name and
one NUL from byte 0 on; what it writes from byte 24 on is overwritten by the
assignments that follow it.  Bytes of `FileName` behind the NUL are never
read and stand as 0. -/
def strcpyImage (number : Int) (name : List Nat) : List Nat :=
  (poke (List.replicate FILENAMESIZE 0 ++ le32 number) 0 (cstr name ++ [0])).take
      (FILENAMESIZE + 4)
    ++ le32 MAXFILESIZE

/-- The inode `CreateFile` overwrites: the fields it assigns, and what the
`strcpy` of the name leaves in `FileName` and `InodeNumber`. -/
def createInode (temp : Inode) (name : List Nat) (permission : Int) (junk : Nat → Nat) : Inode :=
  { temp with
    FileName := cstr (strcpyImage temp.InodeNumber name)
    InodeNumber := ofLe32 ((strcpyImage temp.InodeNumber name).drop FILENAMESIZE)
    FileSize := MAXFILESIZE
    ActualFileSize := 0
    FileType := REGULARFILE
    ReferenceCount := 1
    Permission := permission
    Buffer := some ((List.range MAXFILESIZE).map junk) }

/-- The state `CreateFile` returns in on success: `UFDT[i]` is a new entry
pointing to the inode at position `t`, that inode is initialised, and
`FreeInodes` is decremented. -/
def createState (s : FS) (name : List Nat) (permission : Int) (junk : Nat → Nat)
    (t i : Nat) (temp : Inode) : FS :=
  { superobj := { s.superobj with FreeInodes := s.superobj.FreeInodes - 1 }
    head := s.head.set t (createInode temp name permission junk)
    UFDT := s.UFDT.set i
      (some { ReadOffset := 0, WriteOffset := 0, Mode := permission, ptrinode := t }) }

/-- The `CreateFile` function. -/
def CreateFile (s : FS) (name : Option (List Nat)) (permission : Int) (junk : Nat → Nat) :
    Option (Int × FS) :=
  match name with
  | none => some (ERR_INVALID_PARAMETER, s)
  | some name =>
    if permission < 1 ∨ permission > 3 then some (ERR_INVALID_PARAMETER, s)
    else if s.superobj.FreeInodes = 0 then some (ERR_NO_INODES, s)
    else if IsFileExist s name = true then some (ERR_FILE_ALREADY_EXIST, s)
    else
      match s.head.findIdx? (fun temp => temp.FileType == 0) with
      | none => some (ERR_NO_INODES, s)
      | some t =>
        match (List.range' 3 (MAXOPENFILES - 3)).find? (fun i => (slot s.UFDT i).isNone) with
        | none => some (ERR_MAX_FILES_OPEN, s)
        | some i =>
          match s.head[t]? with
          | none => none
          | some temp =>
            -- strcpy (FileName, name) writes strlen (name) + 1 bytes from byte 0 of
            -- the inode on; from byte NEXTOFFSET on they overwrite the pointer next,
            -- where only a NUL on a next that is NULL (the last inode) changes nothing
            if (cstr name).length < NEXTOFFSET
                ∨ ((cstr name).length = NEXTOFFSET ∧ t + 1 = s.head.length) then
              some ((i : Int), createState s name permission junk t i temp)
            else none

/-- The inode `UnlinkFile` leaves: everything reset, `InodeNumber` kept. -/
def unlinkInode (temp : Inode) : Inode :=
  { temp with
    Buffer := none
    FileSize := 0
    ActualFileSize := 0
    FileType := 0
    ReferenceCount := 0
    Permission := 0
    FileName := [] }

/-- The `for` loop of `UnlinkFile` over the indices `is`: `some (some (i, p))`
when it breaks at entry `i`, bound to inode `p`; `some none` when it runs to the
end; `none` when an entry points to no inode. -/
def unlinkScan (s : FS) (name : List Nat) : List Nat → Option (Option (Nat × Nat))
  | [] => some none
  | i :: rest =>
    match slot s.UFDT i with
    | none => unlinkScan s name rest
    | some ft =>
      match s.head[ft.ptrinode]? with
      | none => none
      | some temp =>
        -- strcmp (UFDT[i]->ptrinode->FileName, name) == 0, then break
        if cstr temp.FileName = cstr name then some (some (i, ft.ptrinode))
        else unlinkScan s name rest

/-- The state `UnlinkFile` returns in after the body of its loop ran for
entry `i`, bound to the inode at position `p`. -/
def unlinkState (s : FS) (i p : Nat) (temp : Inode) : FS :=
  { superobj := { s.superobj with FreeInodes := s.superobj.FreeInodes + 1 }
    head := s.head.set p (unlinkInode temp)
    UFDT := s.UFDT.set i none }

/-- The `UnlinkFile` function. -/
def UnlinkFile (s : FS) (name : Option (List Nat)) : Option (Int × FS) :=
  match name with
  | none => some (ERR_INVALID_PARAMETER, s)
  | some name =>
    if IsFileExist s name = false then some (ERR_FILE_NOT_EXIST, s)
    else
      match unlinkScan s name (List.range MAXOPENFILES) with
      | none => none
      -- the loop ended without a match: return EXECUTE_SUCCESS all the same
      | some none => some (EXECUTE_SUCCESS, s)
      | some (some (i, p)) =>
        match s.head[p]? with
        | none => none
        | some temp =>
          some (EXECUTE_SUCCESS, unlinkState s i p temp)

/-- The inode after the `strncpy` and the update of `ActualFileSize` in
`WriteFile`, for the entry `ft`. -/
def writeInode (ft : FileTable) (ino : Inode) (buf d : List Nat) (size : Int) : Inode :=
  { ino with
    Buffer := some (poke buf ft.WriteOffset.toNat (strncpyBytes d (toSizeT size)))
    ActualFileSize := ino.ActualFileSize + size }

/-- The state `WriteFile` returns in on success, for entry `UFDT[fd] = ft`
whose inode is `ino` with buffer `buf`. -/
def writeState (s : FS) (fd : Nat) (ft : FileTable) (ino : Inode) (buf d : List Nat)
    (size : Int) : FS :=
  { superobj := s.superobj
    head := s.head.set ft.ptrinode (writeInode ft ino buf d size)
    UFDT := s.UFDT.set fd (some { ft with WriteOffset := ft.WriteOffset + size }) }

/-- The `WriteFile` function. -/
def WriteFile (s : FS) (fd : Int) (data : Option (List Nat)) (size : Int) : Option (Int × FS) :=
  if fd < 0 ∨ fd > MAXOPENFILES then some (ERR_INVALID_PARAMETER, s)
  -- fd = MAXOPENFILES passes the check above; UFDT[MAXOPENFILES] is outside the array
  else if MAXOPENFILES ≤ fd.toNat then none
  else
    match slot s.UFDT fd.toNat with
    | none => some (ERR_FILE_NOT_EXIST, s)
    | some ft =>
      match s.head[ft.ptrinode]? with
      | none => none
      | some ino =>
        if ino.Permission < WRITE then some (ERR_PERMISSION_DENIED, s)
        else if (MAXFILESIZE : Int) - ft.WriteOffset < size then some (ERR_INSUFFICIENT_SPACE, s)
        else
          match ino.Buffer with
          | none => none
          | some buf =>
            -- strncpy (Buffer + WriteOffset, data, size) writes (size_t) size bytes,
            -- which have to lie inside the MAXFILESIZE bytes of the buffer; it reads
            -- nothing at data when the count is 0
            if 0 ≤ ft.WriteOffset ∧ ft.WriteOffset.toNat + toSizeT size ≤ MAXFILESIZE
                ∧ (data = none → toSizeT size = 0) then
              some (size, writeState s fd.toNat ft ino buf (data.getD []) size)
            else none

/-- The state `ReadFile` returns in on success, for entry `UFDT[fd] = ft`. -/
def readState (s : FS) (fd : Nat) (ft : FileTable) (size : Int) : FS :=
  { superobj := s.superobj
    head := s.head
    UFDT := s.UFDT.set fd (some { ft with ReadOffset := ft.ReadOffset + size }) }

/-- The `ReadFile` function; the third component of the result is the memory
at the destination `data` after the call: the `size` bytes `strncpy` wrote
there, followed by what the destination holds behind them. -/
def ReadFile (s : FS) (fd : Int) (data : Option (List Nat)) (size : Int) :
    Option (Int × FS × Option (List Nat)) :=
  if fd < 0 ∨ fd > MAXOPENFILES then some (ERR_INVALID_PARAMETER, s, data)
  else
    match data with
    | none => some (ERR_INVALID_PARAMETER, s, data)
    | some dst =>
      if size ≤ 0 then some (ERR_INVALID_PARAMETER, s, data)
      -- fd = MAXOPENFILES passes the first check; UFDT[MAXOPENFILES] is outside the array
      else if MAXOPENFILES ≤ fd.toNat then none
      else
        match slot s.UFDT fd.toNat with
        | none => some (ERR_FILE_NOT_EXIST, s, data)
        | some ft =>
          match s.head[ft.ptrinode]? with
          | none => none
          | some ino =>
            if ino.Permission < READ then some (ERR_PERMISSION_DENIED, s, data)
            else if (MAXFILESIZE : Int) - ft.ReadOffset < size then
              some (ERR_INSUFFICIENT_DATA, s, data)
            else
              match ino.Buffer with
              | none => none
              | some buf =>
                -- strncpy (data, Buffer + ReadOffset, size) reads inside the buffer
                -- and writes (size_t) size bytes at data
                if 0 ≤ ft.ReadOffset then
                  some (size, readState s fd.toNat ft size,
                    some (poke dst 0 (strncpyBytes (buf.drop ft.ReadOffset.toNat) (toSizeT size))))
                else none

/-! ## Runs of the system -/

abbrev INT_MIN : Int := -2147483648
abbrev INT_MAX : Int := 2147483647

/-- The value fits a C `int` (32 bit). -/
def isInt (n : Int) : Prop := INT_MIN ≤ n ∧ n ≤ INT_MAX

instance (n : Int) : Decidable (isInt n) := by unfold isInt; infer_instance

/-- One call of a core operation, with its arguments. -/
inductive Op where
  | create (name : Option (List Nat)) (permission : Int) (junk : Nat → Nat)
  | write (fd : Int) (data : Option (List Nat)) (size : Int)
  | read (fd : Int) (data : Option (List Nat)) (size : Int)
  | unlink (name : Option (List Nat))

/-- Return value and next state of a call, `none` when the call does not
return with a result the source fixes. -/
def Op.run (s : FS) : Op → Option (Int × FS)
  | .create name permission junk => CreateFile s name permission junk
  | .write fd data size => WriteFile s fd data size
  | .read fd data size => (ReadFile s fd data size).map (fun r => (r.1, r.2.1))
  | .unlink name => UnlinkFile s name

/-- The `int` arguments of the call are C `int` values. -/
def Op.typed : Op → Prop
  | .create _ permission _ => isInt permission
  | .write fd _ size => isInt fd ∧ isInt size
  | .read fd _ size => isInt fd ∧ isInt size
  | .unlink _ => True

/-- The states the system reaches: the boot state, and every state a core
operation, called with any arguments, returns in from a reachable state.
A `CreateFile` whose name overruns `FileName` inside the inode is such a
call. -/
inductive Reachable : FS → Prop
  | boot : Reachable StartAuxillaryDataInitialisation
  | step {s s1 : FS} (op : Op) (r : Int) :
      Reachable s → op.typed → op.run s = some (r, s1) → Reachable s1

/-- Bytes of an ASCII text. -/
def bytes (t : String) : List Nat := t.toList.map Char.toNat

/-! ## Preconditions of the operations, and the invariant -/

/-- The checks `CreateFile` passes before it returns descriptor `i`, bound to
the inode at position `t`; `fits` says that the copy of the name leaves the
pointer `next` of that inode as it is. -/
structure Creates (s : FS) (nm : List Nat) (permission : Int) (t i : Nat) (temp : Inode) :
    Prop where
  perm : 1 ≤ permission ∧ permission ≤ 3
  inodes : s.superobj.FreeInodes ≠ 0
  fresh : IsFileExist s nm = false
  inode : s.head.findIdx? (fun temp => temp.FileType == 0) = some t
  entry : (List.range' 3 (MAXOPENFILES - 3)).find? (fun i => (slot s.UFDT i).isNone) = some i
  at_t : s.head[t]? = some temp
  fits : (cstr nm).length < NEXTOFFSET
    ∨ ((cstr nm).length = NEXTOFFSET ∧ t + 1 = s.head.length)

/-- The checks `WriteFile` passes before it copies `size` bytes of `d`. -/
structure Writes (s : FS) (fd : Int) (size : Int) (ft : FileTable) (ino : Inode)
    (buf : List Nat) : Prop where
  fd_range : 0 ≤ fd ∧ fd.toNat < MAXOPENFILES
  entry : slot s.UFDT fd.toNat = some ft
  inode : s.head[ft.ptrinode]? = some ino
  perm : WRITE ≤ ino.Permission
  space : size ≤ (MAXFILESIZE : Int) - ft.WriteOffset
  buffer : ino.Buffer = some buf
  inside : 0 ≤ ft.WriteOffset ∧ ft.WriteOffset.toNat + toSizeT size ≤ MAXFILESIZE

/-- The checks `ReadFile` passes before it copies `size` bytes to `dst`. -/
structure Reads (s : FS) (fd : Int) (size : Int) (dst : List Nat) (ft : FileTable)
    (ino : Inode) (buf : List Nat) : Prop where
  fd_range : 0 ≤ fd ∧ fd.toNat < MAXOPENFILES
  positive : 0 < size
  entry : slot s.UFDT fd.toNat = some ft
  inode : s.head[ft.ptrinode]? = some ino
  perm : READ ≤ ino.Permission
  span : size ≤ (MAXFILESIZE : Int) - ft.ReadOffset
  buffer : ino.Buffer = some buf
  inside : 0 ≤ ft.ReadOffset

/-- What holds of an occupied entry of `UFDT` and the inode it points to. -/
structure Open (ft : FileTable) (ino : Inode) : Prop where
  regular : ino.FileType = REGULARFILE
  size : ino.FileSize = MAXFILESIZE
  perm : 1 ≤ ino.Permission ∧ ino.Permission ≤ 3
  mode : ft.Mode = ino.Permission
  refc : ino.ReferenceCount = 1
  buf : ∃ b, ino.Buffer = some b ∧ b.length = MAXFILESIZE
  rd : 0 ≤ ft.ReadOffset ∧ ft.ReadOffset ≤ MAXFILESIZE
  wr : 0 ≤ ft.WriteOffset ∧ ft.WriteOffset ≤ MAXFILESIZE
  actual : ino.ActualFileSize = ft.WriteOffset
  name : cstr ino.FileName = ino.FileName

/-- The invariant of the three structures. -/
structure WF (s : FS) : Prop where
  total : s.superobj.TotalInodes = MAXINODE
  headLen : s.head.length = MAXINODE
  ufdtLen : s.UFDT.length = MAXOPENFILES
  ftype : ∀ (k : Nat) (ino : Inode), s.head[k]? = some ino → ino.FileType = 0 ∨ ino.FileType = REGULARFILE
  free : s.superobj.FreeInodes = (s.head.countP (fun ino => ino.FileType == 0) : Nat)
  freeInode : ∀ (k : Nat) (ino : Inode), s.head[k]? = some ino → ino.FileType = 0 →
    ino = unlinkInode ino
  reserved : ∀ i, i < 3 → slot s.UFDT i = none
  bound : ∀ i ft, slot s.UFDT i = some ft → ∃ ino, s.head[ft.ptrinode]? = some ino ∧ Open ft ino
  inj : ∀ i j fti ftj, slot s.UFDT i = some fti → slot s.UFDT j = some ftj →
    fti.ptrinode = ftj.ptrinode → i = j
  surj : ∀ (k : Nat) (ino : Inode), s.head[k]? = some ino → ino.FileType = REGULARFILE →
    ∃ i ft, slot s.UFDT i = some ft ∧ ft.ptrinode = k

/-- The permission `p` includes the bit `bit` (`READ` or `WRITE`). -/
def hasBit (p bit : Int) : Prop := (p / bit) % 2 = 1

instance (p bit : Int) : Decidable (hasBit p bit) := by unfold hasBit; infer_instance

/-! ## Example runs -/

/-- The state after a call, the state before when the call gives `none`. -/
def Op.next (s : FS) (op : Op) : FS :=
  match op.run s with
  | some (_, s1) => s1
  | none => s

/-- The state after a sequence of calls. -/
def exec (s : FS) (ops : List Op) : FS := ops.foldl Op.next s

/-- Buffer contents used for `malloc` in the examples: every byte is 170. -/
def junk0 : Nat → Nat := fun _ => 170

/-- Boot, then `CreateFile ("a.txt", 3)`. -/
def exA : FS := exec StartAuxillaryDataInitialisation [.create (some (bytes "a.txt")) 3 junk0]

/-- Boot, then `CreateFile ("b.txt", 1)`. -/
def exB : FS := exec StartAuxillaryDataInitialisation [.create (some (bytes "b.txt")) 1 junk0]

/-- The buffer of the file open at descriptor `fd`. -/
def bufferOf (s : FS) (fd : Nat) : Option (List Nat) :=
  (slot s.UFDT fd).bind (fun ft => (s.head[ft.ptrinode]?).bind Inode.Buffer)

/-- The state `exA`, then `WriteFile (3, data, 3)` with the data bytes 104, 0, 105. -/
def exNul : FS := exec exA [.write 3 (some [104, 0, 105]) 3]

/-- The state `exNul`, then `ReadFile (3, buf, 3)` into a destination of 3 bytes. -/
def exNulRead : FS := exec exNul [.read 3 (some [0, 0, 0]) 3]

/-- Boot, then `CreateFile ("w.txt", 2)`: a file with permission `WRITE` only. -/
def exW : FS := exec StartAuxillaryDataInitialisation [.create (some (bytes "w.txt")) 2 junk0]

/-- The state `exW`, then `ReadFile (3, buf, 1)` into a destination of 1 byte. -/
def exWRead : FS := exec exW [.read 3 (some [0]) 1]

/-- The state `exA`, then `WriteFile` of 45 bytes `x` to descriptor 3. -/
def ex45 : FS := exec exA [.write 3 (some (List.replicate 45 120)) 45]

/-- The state `exNul`, then `WriteFile (3, "x", 1)`. -/
def exNulX : FS := exec exNul [.write 3 (some (bytes "x")) 1]

/-- The state `exA`, then `WriteFile (3, "hello", 5)`. -/
def exH : FS := exec exA [.write 3 (some (bytes "hello")) 5]

/-- The state `exH`, then `WriteFile (3, "world", 5)`. -/
def exHW : FS := exec exH [.write 3 (some (bytes "world")) 5]

/-- The state `exA`, then `CreateFile ("b.txt", 1)`. -/
def exAB : FS := exec exA [.create (some (bytes "b.txt")) 1 junk0]

/-- A name of 20 bytes. -/
def name20 : List Nat := bytes "abcdefghijklmnopqrst"

/-- A name of 24 bytes. -/
def name24 : List Nat := bytes "abcdefghijklmnopqrst0003"

/-- The name `name24` followed by the character `2`: 25 bytes. -/
def name25 : List Nat := bytes "abcdefghijklmnopqrst00032"

/-- Boot, then `CreateFile (name20, 3)`. -/
def ex20 : FS := exec StartAuxillaryDataInitialisation [.create (some name20) 3 junk0]

/-- Boot, then `CreateFile (name24, 3)`. -/
def ex24 : FS := exec StartAuxillaryDataInitialisation [.create (some name24) 3 junk0]

/-- The state `ex24`, then `CreateFile (name24, 3)` once more. -/
def ex24x2 : FS := exec ex24 [.create (some name24) 3 junk0]

/-- The state `ex20`, then `UnlinkFile (name20)`. -/
def ex20u : FS := exec ex20 [.unlink (some name20)]

/-- The state `ex24x2`, then `UnlinkFile (name25)`. -/
def ex24x2u : FS := exec ex24x2 [.unlink (some name25)]

/-- The two inodes agree on every field but `ActualFileSize` and `Buffer`. -/
def sameMeta (a b : Inode) : Prop :=
  a.FileType = b.FileType ∧ a.FileName = b.FileName ∧ a.InodeNumber = b.InodeNumber ∧
  a.FileSize = b.FileSize ∧ a.ReferenceCount = b.ReferenceCount ∧ a.Permission = b.Permission

/-! ## Lemmas: inversion of the operations -/

theorem CreateFile_inv {s s1 : FS} {name : Option (List Nat)} {permission r : Int}
    {junk : Nat → Nat} (h : CreateFile s name permission junk = some (r, s1)) :
    (r < 0 ∧ s1 = s) ∨
    ∃ nm t i temp, name = some nm ∧ Creates s nm permission t i temp ∧ r = (i : Int) ∧
      s1 = createState s nm permission junk t i temp := by
  unfold CreateFile at h
  split at h
  · simp at h; exact Or.inl ⟨by rw [← h.1]; decide, h.2.symm⟩
  · rename_i nm
    split at h
    · simp at h; exact Or.inl ⟨by rw [← h.1]; decide, h.2.symm⟩
    · rename_i hp
      split at h
      · simp at h; exact Or.inl ⟨by rw [← h.1]; decide, h.2.symm⟩
      · rename_i hf
        split at h
        · simp at h; exact Or.inl ⟨by rw [← h.1]; decide, h.2.symm⟩
        · rename_i he
          split at h
          · simp at h; exact Or.inl ⟨by rw [← h.1]; decide, h.2.symm⟩
          · rename_i t ht
            split at h
            · simp at h; exact Or.inl ⟨by rw [← h.1]; decide, h.2.symm⟩
            · rename_i i hi
              split at h
              · simp at h
              · rename_i temp htemp
                split at h
                · rename_i hfit
                  simp at h
                  right
                  refine ⟨nm, t, i, temp, rfl, ⟨by omega, hf, by simpa using he, ht, hi, htemp, hfit⟩,
                    h.1.symm, h.2.symm⟩
                · simp at h

theorem WriteFile_inv {s s1 : FS} {fd size r : Int} {data : Option (List Nat)}
    (h : WriteFile s fd data size = some (r, s1)) :
    (r < 0 ∧ s1 = s) ∨
    ∃ ft ino buf d, d = data.getD [] ∧ Writes s fd size ft ino buf ∧ r = size ∧
      s1 = writeState s fd.toNat ft ino buf d size := by
  unfold WriteFile at h
  split at h
  · simp at h; exact Or.inl ⟨by rw [← h.1]; decide, h.2.symm⟩
  · rename_i hfd
    split at h
    · simp at h
    · rename_i hfd2
      split at h
      · simp at h; exact Or.inl ⟨by rw [← h.1]; decide, h.2.symm⟩
      · rename_i ft hft
        split at h
        · simp at h
        · rename_i ino hino
          split at h
          · simp at h; exact Or.inl ⟨by rw [← h.1]; decide, h.2.symm⟩
          · rename_i hperm
            split at h
            · simp at h; exact Or.inl ⟨by rw [← h.1]; decide, h.2.symm⟩
            · rename_i hspace
              split at h
              · simp at h
              · rename_i buf hbuf
                split at h
                · rename_i hin
                  simp only [Option.some.injEq, Prod.mk.injEq] at h
                  right
                  exact ⟨ft, ino, buf, data.getD [], rfl,
                    ⟨by omega, hft, hino, by omega, by omega, hbuf, ⟨hin.1, hin.2.1⟩⟩,
                    h.1.symm, h.2.symm⟩
                · simp at h

theorem ReadFile_inv {s s1 : FS} {fd size r : Int} {data out : Option (List Nat)}
    (h : ReadFile s fd data size = some (r, s1, out)) :
    (r < 0 ∧ s1 = s ∧ out = data) ∨
    ∃ dst ft ino buf, data = some dst ∧ Reads s fd size dst ft ino buf ∧ r = size ∧
      s1 = readState s fd.toNat ft size ∧
      out = some (poke dst 0 (strncpyBytes (buf.drop ft.ReadOffset.toNat) (toSizeT size))) := by
  unfold ReadFile at h
  split at h
  · simp at h; exact Or.inl ⟨by rw [← h.1]; decide, h.2.1.symm, h.2.2.symm⟩
  · rename_i hfd
    split at h
    · simp at h; exact Or.inl ⟨by rw [← h.1]; decide, h.2.1.symm, h.2.2.symm⟩
    · rename_i dst
      split at h
      · simp at h; exact Or.inl ⟨by rw [← h.1]; decide, h.2.1.symm, h.2.2.symm⟩
      · rename_i hsize
        split at h
        · simp at h
        · rename_i hfd2
          split at h
          · simp at h; exact Or.inl ⟨by rw [← h.1]; decide, h.2.1.symm, h.2.2.symm⟩
          · rename_i ft hft
            split at h
            · simp at h
            · rename_i ino hino
              split at h
              · simp at h; exact Or.inl ⟨by rw [← h.1]; decide, h.2.1.symm, h.2.2.symm⟩
              · rename_i hperm
                split at h
                · simp at h; exact Or.inl ⟨by rw [← h.1]; decide, h.2.1.symm, h.2.2.symm⟩
                · rename_i hspan
                  split at h
                  · simp at h
                  · rename_i buf hbuf
                    split at h
                    · rename_i hin
                      simp only [Option.some.injEq, Prod.mk.injEq] at h
                      right
                      exact ⟨dst, ft, ino, buf, rfl,
                        ⟨by omega, by omega, hft, hino, by omega, by omega, hbuf, hin⟩,
                        h.1.symm, h.2.1.symm, h.2.2.symm⟩
                    · simp at h

theorem UnlinkFile_inv {s s1 : FS} {name : Option (List Nat)} {r : Int}
    (h : UnlinkFile s name = some (r, s1)) :
    (r < 0 ∧ s1 = s) ∨
    (r = EXECUTE_SUCCESS ∧ ∃ nm, name = some nm ∧ IsFileExist s nm = true ∧
      ((unlinkScan s nm (List.range MAXOPENFILES) = some none ∧ s1 = s) ∨
       ∃ i p temp, unlinkScan s nm (List.range MAXOPENFILES) = some (some (i, p)) ∧
         s.head[p]? = some temp ∧ s1 = unlinkState s i p temp)) := by
  unfold UnlinkFile at h
  split at h
  · simp at h; exact Or.inl ⟨by rw [← h.1]; decide, h.2.symm⟩
  · rename_i nm
    split at h
    · simp at h; exact Or.inl ⟨by rw [← h.1]; decide, h.2.symm⟩
    · rename_i hex
      simp only [Bool.not_eq_false] at hex
      split at h
      · simp at h
      · rename_i hscan
        simp at h
        exact Or.inr ⟨h.1.symm, nm, rfl, hex, Or.inl ⟨hscan, h.2.symm⟩⟩
      · rename_i i p hscan
        split at h
        · simp at h
        · rename_i temp htemp
          simp at h
          exact Or.inr ⟨h.1.symm, nm, rfl, hex, Or.inr ⟨i, p, temp, hscan, htemp, h.2.symm⟩⟩

theorem slot_set (u : List (Option FileTable)) (i j : Nat) (v : Option FileTable) :
    slot (u.set i v) j = if i = j then (if i < u.length then v else none) else slot u j := by
  unfold slot
  simp only [List.getD_eq_getElem?_getD, List.getElem?_set]
  split
  · split <;> simp
  · rfl

theorem slot_lt {u : List (Option FileTable)} {i : Nat} {ft : FileTable}
    (h : slot u i = some ft) : i < u.length := by
  unfold slot at h
  by_contra hc
  simp [List.getElem?_eq_none (Nat.le_of_not_lt hc)] at h

theorem cstr_idem (p : List Nat) : cstr (cstr p) = cstr p := by
  unfold cstr
  induction p with
  | nil => rfl
  | cons a l ih =>
    by_cases h : (a != 0) = true
    · simp [List.takeWhile_cons, h, ih]
    · simp [List.takeWhile_cons, h]

theorem cstr_length_le (d : List Nat) : (cstr d).length ≤ d.length := by
  unfold cstr
  induction d with
  | nil => simp
  | cons a l ih =>
    by_cases h : (a != 0) = true
    · simp only [List.takeWhile_cons, h, if_true, List.length_cons]; omega
    · simp [List.takeWhile_cons, h]

theorem cstr_append_of_no_nul (d rest : List Nat) (h : ∀ b ∈ d, b ≠ 0) :
    cstr (d ++ rest) = d ++ cstr rest := by
  unfold cstr
  exact List.takeWhile_append_of_pos (by intro a ha; simpa using h a ha)

theorem cstr_no_nul (p : List Nat) : ∀ b ∈ cstr p, b ≠ 0 := by
  intro b hb
  have := List.mem_takeWhile_imp hb
  simpa using this

/-- What `strcpy (FileName, name)` and `FileSize = MAXFILESIZE` leave as the
string at `FileName`: the name when it has fewer than 24 bytes (up to 19
inside the array, 20 to 23 with the end in `InodeNumber`), and for a longer
name its first 24 bytes followed by the lowest byte of `FileSize`, which is
50, the character `2`. -/
theorem cstr_strcpyImage (number : Int) (name : List Nat) :
    cstr (strcpyImage number name) =
      if (cstr name).length < FILENAMESIZE + 4 then cstr name
      else (cstr name).take (FILENAMESIZE + 4) ++ [MAXFILESIZE] := by
  unfold strcpyImage poke
  simp only [List.take_zero, List.nil_append, Nat.zero_add]
  split
  · rename_i hlt
    rw [List.append_assoc, List.take_append_eq_append_take,
      List.take_of_length_le (Nat.le_of_lt hlt), List.append_assoc,
      cstr_append_of_no_nul _ _ (cstr_no_nul name)]
    have hpos : FILENAMESIZE + 4 - (cstr name).length =
        (FILENAMESIZE + 4 - (cstr name).length - 1) + 1 := by
      omega
    rw [hpos]
    simp [cstr]
  · rename_i hge
    rw [List.append_assoc, List.take_append_eq_append_take]
    have h0 : FILENAMESIZE + 4 - (cstr name).length = 0 := by omega
    rw [h0, List.take_zero, List.append_nil]
    have hn : ∀ b ∈ (cstr name).take (FILENAMESIZE + 4), b ≠ 0 :=
      fun b hb => cstr_no_nul name b (List.mem_of_mem_take hb)
    rw [cstr_append_of_no_nul _ _ hn]
    simp [cstr, le32]

theorem createInode_FileName (temp : Inode) (name : List Nat) (permission : Int)
    (junk : Nat → Nat) :
    (createInode temp name permission junk).FileName =
      if (cstr name).length < FILENAMESIZE + 4 then cstr name
      else (cstr name).take (FILENAMESIZE + 4) ++ [MAXFILESIZE] :=
  cstr_strcpyImage temp.InodeNumber name

theorem ofLe32_le32 (n : Int) (h : isInt n) : ofLe32 (le32 n) = n := by
  unfold isInt at h
  simp only [INT_MIN, INT_MAX] at h
  unfold ofLe32 le32
  simp only [List.getD_cons_zero, List.getD_cons_succ]
  split <;> omega

theorem strcpyImage_short (number : Int) (name : List Nat)
    (h : (cstr name).length < FILENAMESIZE) :
    strcpyImage number name =
      cstr name ++ (List.replicate (FILENAMESIZE - (cstr name).length) 0 ++
        (le32 number ++ le32 MAXFILESIZE)) := by
  unfold strcpyImage poke
  simp only [List.take_zero, List.nil_append, Nat.zero_add]
  have hlen : ((cstr name ++ [0]) ++
      List.drop (cstr name ++ [0]).length (List.replicate FILENAMESIZE 0 ++ le32 number)).length
        = FILENAMESIZE + 4 := by
    simp [le32]
    omega
  rw [List.take_of_length_le (Nat.le_of_eq hlen)]
  have hd : List.drop (cstr name ++ [0]).length (List.replicate FILENAMESIZE 0 ++ le32 number) =
      List.replicate (FILENAMESIZE - (cstr name).length - 1) 0 ++ le32 number := by
    rw [List.drop_append_of_le_length (by simp; omega)]
    simp [List.drop_replicate]
    omega
  rw [hd]
  have hrep : List.replicate (FILENAMESIZE - (cstr name).length) 0 =
      0 :: List.replicate (FILENAMESIZE - (cstr name).length - 1) 0 := by
    have : FILENAMESIZE - (cstr name).length = (FILENAMESIZE - (cstr name).length - 1) + 1 := by
      omega
    rw [this, List.replicate_succ]
    simp
  rw [hrep]
  simp

/-- A name of fewer than 20 bytes fits the array `FileName`: `CreateFile`
leaves `InodeNumber` as it is. -/
theorem createInode_InodeNumber (temp : Inode) (name : List Nat) (permission : Int)
    (junk : Nat → Nat) (h : (cstr name).length < FILENAMESIZE) (hn : isInt temp.InodeNumber) :
    (createInode temp name permission junk).InodeNumber = temp.InodeNumber := by
  have himg := strcpyImage_short temp.InodeNumber name h
  have hdrop : (strcpyImage temp.InodeNumber name).drop FILENAMESIZE =
      le32 temp.InodeNumber ++ le32 MAXFILESIZE := by
    rw [himg, ← List.append_assoc]
    rw [List.drop_append_of_le_length (by simp; omega)]
    rw [List.drop_of_length_le (by simp; omega)]
    rfl
  show ofLe32 ((strcpyImage temp.InodeNumber name).drop FILENAMESIZE) = temp.InodeNumber
  rw [hdrop]
  have : ofLe32 (le32 temp.InodeNumber ++ le32 MAXFILESIZE) = ofLe32 (le32 temp.InodeNumber) := by
    unfold ofLe32 le32
    simp
  rw [this]
  exact ofLe32_le32 _ hn

theorem IsFileExist_iff (s : FS) (nm : List Nat) :
    IsFileExist s nm = true ↔
      ∃ (k : Nat) (ino : Inode), s.head[k]? = some ino ∧ cstr nm = cstr ino.FileName ∧
        ino.FileType = REGULARFILE := by
  unfold IsFileExist
  simp only [List.any_eq_true, Bool.and_eq_true, beq_iff_eq]
  constructor
  · rintro ⟨ino, hmem, h1, h2⟩
    obtain ⟨k, hk⟩ := List.getElem?_of_mem hmem
    exact ⟨k, ino, hk, h1, h2⟩
  · rintro ⟨k, ino, hk, h1, h2⟩
    exact ⟨ino, List.getElem?_mem hk, h1, h2⟩

theorem WF_boot : WF StartAuxillaryDataInitialisation := by
  have hh : StartAuxillaryDataInitialisation.head =
      [newn 1, newn 2, newn 3, newn 4, newn 5] := by decide
  have hu : ∀ i, slot StartAuxillaryDataInitialisation.UFDT i = none := by
    intro i
    simp only [slot, StartAuxillaryDataInitialisation, InitialiseUAREA, List.getD_eq_getElem?_getD, List.getElem?_replicate]
    split <;> rfl
  have hk : ∀ (k : Nat) (ino : Inode), StartAuxillaryDataInitialisation.head[k]? = some ino →
      ino = newn (k + 1) := by
    intro k ino h
    rw [hh] at h
    rcases k with _ | _ | _ | _ | _ | k <;> simp at h <;> exact h.symm
  refine ⟨by decide, by decide, by decide, ?_, by decide, ?_, ?_, ?_, ?_, ?_⟩
  · intro k ino h; rw [hk k ino h]; simp [newn]
  · intro k ino h _; rw [hk k ino h]; rfl
  · intro i _; exact hu i
  · intro i ft h; rw [hu i] at h; cases h
  · intro i j fti ftj h; rw [hu i] at h; cases h
  · intro k ino h hr; rw [hk k ino h] at hr; simp [newn] at hr

theorem Creates.facts {s : FS} {nm : List Nat} {permission : Int} {t i : Nat} {temp : Inode}
    (h : Creates s nm permission t i temp) :
    temp.FileType = 0 ∧ t < s.head.length ∧ 3 ≤ i ∧ i < MAXOPENFILES ∧ slot s.UFDT i = none ∧
    (∀ (k : Nat) (ino : Inode), k < t → s.head[k]? = some ino → ino.FileType ≠ 0) ∧
    (∀ j, 3 ≤ j → j < i → slot s.UFDT j ≠ none) := by
  obtain ⟨ht, hp, hmin⟩ := List.findIdx?_eq_some_iff_getElem.1 h.inode
  have hat := h.at_t
  rw [List.getElem?_eq_getElem ht] at hat
  simp only [Option.some.injEq] at hat
  rw [hat] at hp
  have hmem := List.mem_of_find?_eq_some h.entry
  have hnone := List.find?_some h.entry
  simp only [List.mem_range'_1] at hmem
  refine ⟨by simpa using hp, ht, hmem.1, by have := hmem.2; omega, by simpa using hnone, ?_, ?_⟩
  · intro k ino hk hko
    have hk2 : k < s.head.length := by omega
    rw [List.getElem?_eq_getElem hk2] at hko
    simp only [Option.some.injEq] at hko
    have := hmin k hk
    rw [hko] at this
    simpa using this
  · intro j hj3 hji
    have := (List.find?_range'_eq_some.1 h.entry).2.2 j hj3 hji
    intro hc
    rw [hc] at this
    simp at this

theorem countP_free_set_int (l : List Inode) (k : Nat) (old new : Inode)
    (hk : l[k]? = some old) :
    (((l.set k new).countP (fun ino => ino.FileType == 0) : Nat) : Int) =
      (l.countP (fun ino => ino.FileType == 0) : Nat)
        - (if old.FileType = 0 then 1 else 0) + (if new.FileType = 0 then 1 else 0) := by
  have hlt : k < l.length := by
    by_contra hc
    simp [List.getElem?_eq_none (Nat.le_of_not_lt hc)] at hk
  have hget : l[k] = old := by
    rw [List.getElem?_eq_getElem hlt] at hk
    simpa using hk
  rw [List.countP_set _ _ _ _ hlt, hget]
  have hpos : old.FileType = 0 → 0 < l.countP (fun ino => ino.FileType == 0) := by
    intro h0
    exact List.countP_pos_iff.2 ⟨old, List.getElem?_mem hk, by simp [h0]⟩
  by_cases ho : old.FileType = 0 <;> by_cases hn : new.FileType = 0
  · have := hpos ho
    simp [ho, hn]; omega
  · have := hpos ho
    simp [ho, hn]; omega
  · simp [ho, hn]
  · simp [ho, hn]

theorem WF_create {s : FS} {nm : List Nat} {permission : Int} {t i : Nat} {temp : Inode}
    (junk : Nat → Nat) (w : WF s) (h : Creates s nm permission t i temp) :
    WF (createState s nm permission junk t i temp) := by
  obtain ⟨hfree, htlt, hi3, hi20, hinone, _, _⟩ := h.facts
  have hnot : ∀ j ft, slot s.UFDT j = some ft → ft.ptrinode ≠ t := by
    intro j ft hj hc
    obtain ⟨ino, hino, ho⟩ := w.bound j ft hj
    rw [hc, h.at_t] at hino
    simp only [Option.some.injEq] at hino
    have := ho.regular
    rw [← hino, hfree] at this
    simp at this
  have hiu : i < s.UFDT.length := by rw [w.ufdtLen]; exact hi20
  have hslot : ∀ j, slot (createState s nm permission junk t i temp).UFDT j =
      if i = j then some { ReadOffset := 0, WriteOffset := 0, Mode := permission, ptrinode := t }
      else slot s.UFDT j := by
    intro j
    simp only [createState, slot_set, hiu, if_true]
  have hhead : ∀ k, (createState s nm permission junk t i temp).head[k]? =
      if t = k then some (createInode temp nm permission junk) else s.head[k]? := by
    intro k
    simp only [createState, List.getElem?_set, htlt, if_true]
  refine ⟨w.total, ?_, ?_, ?_, ?_, ?_, ?_, ?_, ?_, ?_⟩
  · simp [createState, w.headLen]
  · simp [createState, w.ufdtLen]
  · intro k ino hk
    rw [hhead] at hk
    split at hk
    · simp only [Option.some.injEq] at hk
      rw [← hk]; right; rfl
    · exact w.ftype k ino hk
  · have := countP_free_set_int s.head t temp (createInode temp nm permission junk) h.at_t
    simp only [createState]
    rw [this, w.free, hfree]
    simp [createInode]
  · intro k ino hk h0
    rw [hhead] at hk
    split at hk
    · simp only [Option.some.injEq] at hk
      rw [← hk] at h0
      simp [createInode] at h0
    · exact w.freeInode k ino hk h0
  · intro j hj
    rw [hslot]
    split
    · omega
    · exact w.reserved j hj
  · intro j ft hj
    rw [hslot] at hj
    split at hj
    · simp only [Option.some.injEq] at hj
      subst hj
      refine ⟨createInode temp nm permission junk, by simp [hhead], ?_⟩
      exact ⟨rfl, rfl, h.perm, rfl, rfl, ⟨_, rfl, by simp⟩, by simp, by simp, rfl,
        cstr_idem _⟩
    · obtain ⟨ino, hino, ho⟩ := w.bound j ft hj
      refine ⟨ino, ?_, ho⟩
      rw [hhead, if_neg (fun hc => hnot j ft hj hc.symm)]
      exact hino
  · intro j k fj fk hj hk hjk
    rw [hslot] at hj hk
    split at hj <;> split at hk
    · omega
    · simp only [Option.some.injEq] at hj
      subst hj
      exact absurd hjk.symm (hnot k fk hk)
    · simp only [Option.some.injEq] at hk
      subst hk
      exact absurd hjk (hnot j fj hj)
    · exact w.inj j k fj fk hj hk hjk
  · intro k ino hk hr
    rw [hhead] at hk
    split at hk
    · rename_i htk
      exact ⟨i, _, by rw [hslot, if_pos rfl], htk⟩
    · obtain ⟨j, ft, hj, hp⟩ := w.surj k ino hk hr
      refine ⟨j, ft, ?_, hp⟩
      rw [hslot, if_neg]
      · exact hj
      · intro hc
        rw [← hc, hinone] at hj
        cases hj

theorem toSizeT_nonneg {n : Int} (h : 0 ≤ n) (h2 : n ≤ INT_MAX) : toSizeT n = n.toNat := by
  unfold toSizeT
  simp only [INT_MAX] at h2
  congr 1
  omega

theorem toSizeT_neg {n : Int} (h : n < 0) (h2 : INT_MIN ≤ n) : 2 ^ 63 ≤ toSizeT n := by
  unfold toSizeT
  simp only [INT_MIN] at h2
  omega

theorem strncpyBytes_length (src : List Nat) (n : Nat) : (strncpyBytes src n).length = n := by
  unfold strncpyBytes
  simp only [List.length_append, List.length_replicate, List.length_take]
  omega

theorem poke_length (mem : List Nat) (off : Nat) (b : List Nat)
    (h : off + b.length ≤ mem.length) : (poke mem off b).length = mem.length := by
  unfold poke
  simp only [List.length_append, List.length_take, List.length_drop]
  omega

@[simp]
theorem writeInode_FileType (ft : FileTable) (ino : Inode) (buf d : List Nat)
    (size : Int) : (writeInode ft ino buf d size).FileType = ino.FileType := rfl

@[simp]
theorem writeInode_FileName (ft : FileTable) (ino : Inode) (buf d : List Nat)
    (size : Int) : (writeInode ft ino buf d size).FileName = ino.FileName := rfl

@[simp]
theorem writeInode_InodeNumber (ft : FileTable) (ino : Inode) (buf d : List Nat)
    (size : Int) : (writeInode ft ino buf d size).InodeNumber = ino.InodeNumber := rfl

@[simp]
theorem writeInode_FileSize (ft : FileTable) (ino : Inode) (buf d : List Nat)
    (size : Int) : (writeInode ft ino buf d size).FileSize = ino.FileSize := rfl

@[simp]
theorem writeInode_ReferenceCount (ft : FileTable) (ino : Inode) (buf d : List Nat)
    (size : Int) : (writeInode ft ino buf d size).ReferenceCount = ino.ReferenceCount := rfl

@[simp]
theorem writeInode_Permission (ft : FileTable) (ino : Inode) (buf d : List Nat)
    (size : Int) : (writeInode ft ino buf d size).Permission = ino.Permission := rfl

@[simp]
theorem writeInode_ActualFileSize (ft : FileTable) (ino : Inode) (buf d : List Nat)
    (size : Int) :
    (writeInode ft ino buf d size).ActualFileSize = ino.ActualFileSize + size := rfl

@[simp]
theorem writeInode_Buffer (ft : FileTable) (ino : Inode) (buf d : List Nat)
    (size : Int) :
    (writeInode ft ino buf d size).Buffer =
      some (poke buf ft.WriteOffset.toNat (strncpyBytes d (toSizeT size))) := rfl

/-- A successful `WriteFile` in a well-formed state has a size of `0 .. 50 - w`. -/
theorem Writes.size_range {s : FS} {fd size : Int} {ft : FileTable} {ino : Inode}
    {buf : List Nat} (h : Writes s fd size ft ino buf) (hmin : INT_MIN ≤ size) :
    0 ≤ size ∧ toSizeT size = size.toNat := by
  have hin := h.inside
  have hsp := h.space
  simp only [MAXFILESIZE, INT_MIN] at hin hsp hmin
  by_cases hneg : size < 0
  · have := toSizeT_neg hneg hmin
    omega
  · have h0 : 0 ≤ size := by omega
    refine ⟨h0, toSizeT_nonneg h0 ?_⟩
    simp only [INT_MAX]
    omega

theorem WF_write {s : FS} {fd size : Int} {ft : FileTable} {ino : Inode} {buf : List Nat}
    (d : List Nat) (w : WF s) (h : Writes s fd size ft ino buf) (hmin : INT_MIN ≤ size) :
    WF (writeState s fd.toNat ft ino buf d size) := by
  obtain ⟨hs0, hsz⟩ := h.size_range hmin
  obtain ⟨ino0, hino0, ho⟩ := w.bound _ _ h.entry
  have hinoeq : ino0 = ino := by
    rw [h.inode] at hino0
    simpa using hino0.symm
  subst hinoeq
  have hfu : fd.toNat < s.UFDT.length := slot_lt h.entry
  have hpl : ft.ptrinode < s.head.length := by
    by_contra hc
    have := h.inode
    simp [List.getElem?_eq_none (Nat.le_of_not_lt hc)] at this
  have hslot : ∀ j, slot (writeState s fd.toNat ft ino0 buf d size).UFDT j =
      if fd.toNat = j then some { ft with WriteOffset := ft.WriteOffset + size }
      else slot s.UFDT j := by
    intro j
    simp only [writeState, slot_set, hfu, if_true]
  have hhead : ∀ k, (writeState s fd.toNat ft ino0 buf d size).head[k]? =
      if ft.ptrinode = k then some
        (writeInode ft ino0 buf d size)
      else s.head[k]? := by
    intro k
    simp only [writeState, List.getElem?_set, hpl, if_true]
  refine ⟨w.total, ?_, ?_, ?_, ?_, ?_, ?_, ?_, ?_, ?_⟩
  · simp [writeState, w.headLen]
  · simp [writeState, w.ufdtLen]
  · intro k x hk
    rw [hhead] at hk
    split at hk
    · simp only [Option.some.injEq] at hk
      rw [← hk]; right; simpa using ho.regular
    · exact w.ftype k x hk
  · have := countP_free_set_int s.head ft.ptrinode ino0
      (writeInode ft ino0 buf d size) h.inode
    simp only [writeState]
    rw [this, w.free]
    simp [ho.regular]
  · intro k x hk h0
    rw [hhead] at hk
    split at hk
    · simp only [Option.some.injEq] at hk
      rw [← hk] at h0
      simp [ho.regular] at h0
    · exact w.freeInode k x hk h0
  · intro j hj
    rw [hslot]
    split
    · rename_i hfj
      exfalso
      have := w.reserved fd.toNat (by omega)
      rw [h.entry] at this
      cases this
    · exact w.reserved j hj
  · intro j fj hj
    rw [hslot] at hj
    split at hj
    · simp only [Option.some.injEq] at hj
      subst hj
      refine ⟨writeInode ft ino0 buf d size, by simp [hhead], ?_⟩
      obtain ⟨b, hb, hbl⟩ := ho.buf
      have hbb : b = buf := by
        rw [h.buffer] at hb
        simpa using hb.symm
      subst hbb
      have hin := h.inside
      have hwr := ho.wr
      have hsp := h.space
      refine ⟨ho.regular, ho.size, ho.perm, ho.mode, ho.refc, ⟨_, rfl, ?_⟩, ho.rd, ?_, ?_, ho.name⟩
      · rw [poke_length]
        · exact hbl
        · rw [strncpyBytes_length, hbl]; exact hin.2
      · simp only [MAXFILESIZE] at hsp hwr ⊢
        constructor <;> omega
      · simp [ho.actual]
    · obtain ⟨x, hx, hox⟩ := w.bound j fj hj
      refine ⟨x, ?_, hox⟩
      rw [hhead, if_neg]
      · exact hx
      · intro hc
        rename_i hne
        exact hne (w.inj _ _ _ _ h.entry hj hc)
  · intro j k fj fk hj hk hjk
    rw [hslot] at hj hk
    split at hj <;> split at hk
    · omega
    · simp only [Option.some.injEq] at hj
      subst hj
      rename_i hfj _
      rw [← hfj]
      exact w.inj _ _ _ _ h.entry hk hjk
    · simp only [Option.some.injEq] at hk
      subst hk
      rename_i _ hfk
      rw [← hfk]
      exact w.inj _ _ _ _ hj h.entry hjk
    · exact w.inj j k fj fk hj hk hjk
  · intro k x hk hr
    have hold : ∃ y, s.head[k]? = some y ∧ y.FileType = REGULARFILE := by
      rw [hhead] at hk
      split at hk
      · rename_i hpk
        exact ⟨ino0, hpk ▸ h.inode, ho.regular⟩
      · exact ⟨x, hk, hr⟩
    obtain ⟨y, hy, hyr⟩ := hold
    obtain ⟨j, fj, hj, hp⟩ := w.surj k y hy hyr
    by_cases hfj : fd.toNat = j
    · refine ⟨j, _, by rw [hslot, if_pos hfj], ?_⟩
      subst hfj
      rw [h.entry] at hj
      simp only [Option.some.injEq] at hj
      rw [hj]; exact hp
    · exact ⟨j, fj, by rw [hslot, if_neg hfj]; exact hj, hp⟩

theorem WF_read {s : FS} {fd size : Int} {dst : List Nat} {ft : FileTable} {ino : Inode}
    {buf : List Nat} (w : WF s) (h : Reads s fd size dst ft ino buf) :
    WF (readState s fd.toNat ft size) := by
  obtain ⟨ino0, hino0, ho⟩ := w.bound _ _ h.entry
  have hfu : fd.toNat < s.UFDT.length := slot_lt h.entry
  have hslot : ∀ j, slot (readState s fd.toNat ft size).UFDT j =
      if fd.toNat = j then some { ft with ReadOffset := ft.ReadOffset + size }
      else slot s.UFDT j := by
    intro j
    simp only [readState, slot_set, hfu, if_true]
  refine ⟨w.total, w.headLen, ?_, w.ftype, w.free, w.freeInode, ?_, ?_, ?_, ?_⟩
  · simp [readState, w.ufdtLen]
  · intro j hj
    rw [hslot]
    split
    · rename_i hfj
      exfalso
      have := w.reserved fd.toNat (by omega)
      rw [h.entry] at this
      cases this
    · exact w.reserved j hj
  · intro j fj hj
    rw [hslot] at hj
    split at hj
    · simp only [Option.some.injEq] at hj
      subst hj
      refine ⟨ino0, hino0, ?_⟩
      have hrd := ho.rd
      have hsp := h.span
      have hpos := h.positive
      refine ⟨ho.regular, ho.size, ho.perm, ho.mode, ho.refc, ho.buf, ?_, ho.wr, ho.actual, ho.name⟩
      simp only [MAXFILESIZE] at hsp hrd ⊢
      constructor <;> omega
    · exact w.bound j fj hj
  · intro j k fj fk hj hk hjk
    rw [hslot] at hj hk
    split at hj <;> split at hk
    · omega
    · simp only [Option.some.injEq] at hj
      subst hj
      rename_i hfj _
      rw [← hfj]
      exact w.inj _ _ _ _ h.entry hk hjk
    · simp only [Option.some.injEq] at hk
      subst hk
      rename_i _ hfk
      rw [← hfk]
      exact w.inj _ _ _ _ hj h.entry hjk
    · exact w.inj j k fj fk hj hk hjk
  · intro k x hk hr
    obtain ⟨j, fj, hj, hp⟩ := w.surj k x hk hr
    by_cases hfj : fd.toNat = j
    · refine ⟨j, _, by rw [hslot, if_pos hfj], ?_⟩
      subst hfj
      rw [h.entry] at hj
      simp only [Option.some.injEq] at hj
      rw [hj]; exact hp
    · exact ⟨j, fj, by rw [hslot, if_neg hfj]; exact hj, hp⟩

theorem unlinkScan_found (s : FS) (nm : List Nat) :
    ∀ (l : List Nat) (i p : Nat), unlinkScan s nm l = some (some (i, p)) →
      i ∈ l ∧ ∃ ft temp, slot s.UFDT i = some ft ∧ ft.ptrinode = p ∧
        s.head[p]? = some temp ∧ cstr temp.FileName = cstr nm := by
  intro l
  induction l with
  | nil => intro i p h; simp [unlinkScan] at h
  | cons a l ih =>
    intro i p h
    unfold unlinkScan at h
    split at h
    · obtain ⟨hm, hr⟩ := ih i p h
      exact ⟨List.mem_cons_of_mem _ hm, hr⟩
    · rename_i ft hft
      split at h
      · cases h
      · rename_i temp htemp
        split at h
        · rename_i hname
          simp only [Option.some.injEq, Prod.mk.injEq] at h
          obtain ⟨rfl, rfl⟩ := h
          exact ⟨List.mem_cons_self _ _, ft, temp, hft, rfl, htemp, hname⟩
        · obtain ⟨hm, hr⟩ := ih i p h
          exact ⟨List.mem_cons_of_mem _ hm, hr⟩

theorem WF_unlink {s : FS} {i p : Nat} {ft : FileTable} {temp : Inode} (w : WF s)
    (hft : slot s.UFDT i = some ft) (hp : ft.ptrinode = p) (htemp : s.head[p]? = some temp) :
    WF (unlinkState s i p temp) := by
  obtain ⟨ino0, hino0, ho⟩ := w.bound _ _ hft
  have hinoeq : ino0 = temp := by
    rw [hp, htemp] at hino0
    simpa using hino0.symm
  subst hinoeq
  have hiu : i < s.UFDT.length := slot_lt hft
  have hpl : p < s.head.length := by
    by_contra hc
    simp [List.getElem?_eq_none (Nat.le_of_not_lt hc)] at htemp
  have hslot : ∀ j, slot (unlinkState s i p ino0).UFDT j =
      if i = j then none else slot s.UFDT j := by
    intro j
    simp only [unlinkState, slot_set, hiu, if_true]
  have hhead : ∀ k, (unlinkState s i p ino0).head[k]? =
      if p = k then some (unlinkInode ino0) else s.head[k]? := by
    intro k
    simp only [unlinkState, List.getElem?_set, hpl, if_true]
  have hother : ∀ j fj, i ≠ j → slot s.UFDT j = some fj → fj.ptrinode ≠ p := by
    intro j fj hij hj hc
    exact hij (w.inj i j ft fj hft hj (hp.trans hc.symm))
  refine ⟨w.total, ?_, ?_, ?_, ?_, ?_, ?_, ?_, ?_, ?_⟩
  · simp [unlinkState, w.headLen]
  · simp [unlinkState, w.ufdtLen]
  · intro k x hk
    rw [hhead] at hk
    split at hk
    · simp only [Option.some.injEq] at hk
      rw [← hk]; left; rfl
    · exact w.ftype k x hk
  · have := countP_free_set_int s.head p ino0 (unlinkInode ino0) htemp
    simp only [unlinkState]
    rw [this, w.free]
    simp [ho.regular, unlinkInode]
  · intro k x hk h0
    rw [hhead] at hk
    split at hk
    · simp only [Option.some.injEq] at hk
      rw [← hk]
      rfl
    · exact w.freeInode k x hk h0
  · intro j hj
    rw [hslot]
    split
    · rfl
    · exact w.reserved j hj
  · intro j fj hj
    rw [hslot] at hj
    split at hj
    · cases hj
    · rename_i hij
      obtain ⟨x, hx, hox⟩ := w.bound j fj hj
      refine ⟨x, ?_, hox⟩
      rw [hhead, if_neg]
      · exact hx
      · intro hc
        exact hother j fj hij hj hc.symm
  · intro j k fj fk hj hk hjk
    rw [hslot] at hj hk
    split at hj
    · cases hj
    · split at hk
      · cases hk
      · exact w.inj j k fj fk hj hk hjk
  · intro k x hk hr
    rw [hhead] at hk
    split at hk
    · simp only [Option.some.injEq] at hk
      rw [← hk] at hr
      simp [unlinkInode] at hr
    · rename_i hpk
      obtain ⟨j, fj, hj, hjp⟩ := w.surj k x hk hr
      refine ⟨j, fj, ?_, hjp⟩
      rw [hslot, if_neg]
      · exact hj
      · intro hc
        subst hc
        rw [hft] at hj
        simp only [Option.some.injEq] at hj
        rw [← hj, hp] at hjp
        exact hpk hjp

/-- Every reachable state satisfies the invariant. -/
theorem Reachable.wf {s : FS} (h : Reachable s) : WF s := by
  induction h with
  | boot => exact WF_boot
  | step op r _ htyped hrun ih =>
    cases op with
    | create name permission junk =>
      rcases CreateFile_inv hrun with ⟨_, rfl⟩ | ⟨nm, t, i, temp, _, hc, _, rfl⟩
      · exact ih
      · exact WF_create junk ih hc
    | write fd data size =>
      rcases WriteFile_inv hrun with ⟨_, rfl⟩ | ⟨ft, ino, buf, d, _, hw, _, rfl⟩
      · exact ih
      · exact WF_write d ih hw htyped.2.1
    | read fd data size =>
      simp only [Op.run, Option.map_eq_some'] at hrun
      obtain ⟨⟨r0, s0, out⟩, hread, heq⟩ := hrun
      simp only [Prod.mk.injEq] at heq
      obtain ⟨rfl, rfl⟩ := heq
      rcases ReadFile_inv hread with ⟨_, rfl, _⟩ | ⟨dst, ft, ino, buf, _, hr, _, rfl, _⟩
      · exact ih
      · exact WF_read ih hr
    | unlink name =>
      rcases UnlinkFile_inv hrun with ⟨_, rfl⟩ | ⟨_, nm, _, _, ⟨_, rfl⟩ | ⟨i, p, temp, hscan, htemp, rfl⟩⟩
      · exact ih
      · exact ih
      · obtain ⟨_, ft, temp2, hft, hp, _, _⟩ := unlinkScan_found _ _ _ i p hscan
        exact WF_unlink ih hft hp htemp

/-! ## Reachable example states -/

theorem Reachable.next {s : FS} (h : Reachable s) (op : Op) (ht : op.typed) :
    Reachable (op.next s) := by
  unfold Op.next
  split
  · rename_i r s1 hrun
    exact Reachable.step op r h ht hrun
  · exact h

theorem Reachable.exec {s : FS} (h : Reachable s) (ops : List Op)
    (ht : ∀ op ∈ ops, op.typed) : Reachable (exec s ops) := by
  induction ops generalizing s with
  | nil => exact h
  | cons op ops ih =>
    exact ih (h.next op (ht op (List.mem_cons_self _ _)))
      (fun o ho => ht o (List.mem_cons_of_mem _ ho))

theorem exA_reachable : Reachable exA :=
  Reachable.boot.exec _ (by simp [Op.typed, isInt, INT_MIN, INT_MAX])

theorem exB_reachable : Reachable exB :=
  Reachable.boot.exec _ (by simp [Op.typed, isInt, INT_MIN, INT_MAX])

/-! ## The claims -/

theorem countP_free_add_regular (l : List Inode)
    (h : ∀ x ∈ l, x.FileType = 0 ∨ x.FileType = REGULARFILE) :
    l.countP (fun ino => ino.FileType == 0) + l.countP (fun ino => ino.FileType == REGULARFILE)
      = l.length := by
  induction l with
  | nil => rfl
  | cons a l ih =>
    have ih2 := ih (fun x hx => h x (List.mem_cons_of_mem _ hx))
    rcases h a (List.mem_cons_self _ _) with h0 | h1
    · simp [List.countP_cons, h0]
      omega
    · simp [List.countP_cons, h1]
      omega

/-- C1: in every reachable state `FreeInodes` is the number of inodes whose
`FileType` is 0 (free), and `FreeInodes` plus the number of inodes whose
`FileType` is `REGULARFILE` is `MAXINODE`, which is 5. -/
theorem freeInodes_counts_free (s : FS) (h : Reachable s) :
    s.superobj.FreeInodes = (s.head.countP (fun ino => ino.FileType == 0) : Nat) ∧
    s.superobj.FreeInodes + (s.head.countP (fun ino => ino.FileType == REGULARFILE) : Nat)
      = MAXINODE ∧ MAXINODE = 5 := by
  have w := h.wf
  refine ⟨w.free, ?_, rfl⟩
  have hsum := countP_free_add_regular s.head (by
    intro x hx
    obtain ⟨k, hk⟩ := List.getElem?_of_mem hx
    exact w.ftype k x hk)
  rw [w.free, ← w.headLen, ← hsum]
  push_cast
  rfl

theorem freeInodes_counts_free_witness :
    Reachable exA ∧ exA.superobj.FreeInodes = 4 ∧
    exA.superobj.FreeInodes = (exA.head.countP (fun ino => ino.FileType == 0) : Nat) ∧
    exA.superobj.FreeInodes + (exA.head.countP (fun ino => ino.FileType == REGULARFILE) : Nat)
      = MAXINODE ∧ MAXINODE = 5 :=
  ⟨exA_reachable, by decide, freeInodes_counts_free exA exA_reachable⟩

/-- C2: a call of `CreateFile`, `WriteFile`, `ReadFile` or `UnlinkFile` that
returns a negative value returns in the state it was called in (`superobj`,
every inode with its buffer, every entry of `UFDT` with its offsets), and
`ReadFile` leaves the destination as it was: every error path returns before
the first assignment, and a call that reaches the assignments returns a
descriptor or a size that is not negative. -/
theorem negative_return_unchanged (s s1 : FS) (r : Int) (hr : r < 0) :
    (∀ name permission junk, CreateFile s name permission junk = some (r, s1) → s1 = s) ∧
    (∀ fd data size, isInt size → WriteFile s fd data size = some (r, s1) → s1 = s) ∧
    (∀ fd data size out, ReadFile s fd data size = some (r, s1, out) → s1 = s ∧ out = data) ∧
    (∀ name, UnlinkFile s name = some (r, s1) → s1 = s) := by
  refine ⟨?_, ?_, ?_, ?_⟩
  · intro name permission junk h
    rcases CreateFile_inv h with ⟨_, hs⟩ | ⟨nm, t, i, temp, _, _, hri, _⟩
    · exact hs
    · omega
  · intro fd data size hsize h
    rcases WriteFile_inv h with ⟨_, hs⟩ | ⟨ft, ino, buf, d, _, hw, hrs, _⟩
    · exact hs
    · exfalso
      have hin := hw.inside
      have := toSizeT_neg (hrs ▸ hr) hsize.1
      simp only [MAXFILESIZE] at hin
      omega
  · intro fd data size out h
    rcases ReadFile_inv h with ⟨_, hs, ho⟩ | ⟨dst, ft, ino, buf, _, hrd, hrs, _, _⟩
    · exact ⟨hs, ho⟩
    · have := hrd.positive
      omega
  · intro name h
    rcases UnlinkFile_inv h with ⟨_, hs⟩ | ⟨h0, _⟩
    · exact hs
    · simp only [EXECUTE_SUCCESS] at h0
      omega

theorem negative_return_unchanged_witness :
    (-5 : Int) < 0 ∧ WriteFile exB 3 (some (bytes "x")) 1 = some (-5, exB) ∧
    ((∀ name permission junk, CreateFile exB name permission junk = some (-5, exB) →
        exB = exB) ∧
     (∀ fd data size, isInt size → WriteFile exB fd data size = some (-5, exB) → exB = exB) ∧
     (∀ fd data size out, ReadFile exB fd data size = some (-5, exB, out) →
        exB = exB ∧ out = data) ∧
     (∀ name, UnlinkFile exB name = some (-5, exB) → exB = exB)) :=
  ⟨by decide, by decide, negative_return_unchanged exB exB (-5) (by decide)⟩

/-- What `CreateFile` leaves when it returns a descriptor `d`, not negative,
in a reachable state: `3 ≤ d < MAXOPENFILES`, `UFDT[d]` is an entry with
`ReadOffset` 0, `WriteOffset` 0 and `Mode` the permission, the inode it
points to has `FileSize` 50, `ActualFileSize` 0, `FileType` `REGULARFILE`,
`ReferenceCount` 1 and the permission as `Permission`, and `FreeInodes` is
one less than before.  Its `FileName` is the name when the name has fewer
than 24 bytes, and the first 24 bytes of the name followed by the character
`2` otherwise. -/
theorem CreateFile_success (s s1 : FS) (name : Option (List Nat)) (permission d : Int)
    (junk : Nat → Nat) (hs : Reachable s)
    (h : CreateFile s name permission junk = some (d, s1)) (hd : 0 ≤ d) :
    3 ≤ d ∧ d < MAXOPENFILES ∧
    ∃ nm ft ino, name = some nm ∧ slot s1.UFDT d.toNat = some ft ∧
      ft.ReadOffset = 0 ∧ ft.WriteOffset = 0 ∧ ft.Mode = permission ∧
      s1.head[ft.ptrinode]? = some ino ∧
      ino.FileName = (if (cstr nm).length < FILENAMESIZE + 4 then cstr nm
        else (cstr nm).take (FILENAMESIZE + 4) ++ [MAXFILESIZE]) ∧
      ino.FileSize = 50 ∧ ino.ActualFileSize = 0 ∧
      ino.FileType = REGULARFILE ∧ ino.ReferenceCount = 1 ∧ ino.Permission = permission ∧
      s1.superobj.FreeInodes = s.superobj.FreeInodes - 1 := by
  have w := hs.wf
  rcases CreateFile_inv h with ⟨hneg, _⟩ | ⟨nm, t, i, temp, hname, hc, hri, hs1⟩
  · omega
  · obtain ⟨_, htlt, hi3, hi20, _, _, _⟩ := hc.facts
    have hiu : i < s.UFDT.length := by rw [w.ufdtLen]; exact hi20
    subst hri hs1
    refine ⟨by omega, by simp only [MAXOPENFILES] at hi20 ⊢; omega, nm,
      { ReadOffset := 0, WriteOffset := 0, Mode := permission, ptrinode := t },
      createInode temp nm permission junk, hname, ?_, rfl, rfl, rfl, ?_,
      createInode_FileName temp nm permission junk, rfl, rfl, rfl, rfl, rfl, rfl⟩
    · simp [createState, slot_set, hiu]
    · simp [createState, htlt]

/-- C3, the defect: `CreateFile` copies the name with `strcpy` into the 20
bytes of `FileName` without a check of its length.  In the boot state the
call with a name of 24 bytes returns descriptor 3; the copy runs over
`InodeNumber` and ends with its NUL on the lowest byte of `FileSize`, which
the assignment `FileSize = MAXFILESIZE` then sets to 50, the character `2`.
The inode bound to the entry holds the name followed by `2`, not the name,
and `IsFileExist` does not find the name. -/
theorem CreateFile_stores_other_name :
    (cstr name24).length = 24 ∧
    CreateFile StartAuxillaryDataInitialisation (some name24) 3 junk0 = some (3, ex24) ∧
    slot ex24.UFDT 3 = some { ReadOffset := 0, WriteOffset := 0, Mode := 3, ptrinode := 0 } ∧
    (ex24.head[0]?).map Inode.FileName = some (name24 ++ [50]) ∧
    name24 ++ [50] = bytes "abcdefghijklmnopqrst00032" ∧
    (ex24.head[0]?).map Inode.FileName ≠ some (cstr name24) ∧
    (ex24.head[0]?).map Inode.FileType = some REGULARFILE ∧
    IsFileExist ex24 name24 = false :=
  ⟨by decide, by decide, by decide, by decide, by decide, by decide, by decide, by decide⟩

/-- C4: in a state with `FreeInodes > 0`, for a name for which `IsFileExist`
is true and a permission 1, 2 or 3, `CreateFile` returns
`ERR_FILE_ALREADY_EXIST` and the state (`FreeInodes`, inodes, `UFDT`) is
unchanged. -/
theorem CreateFile_duplicate (s : FS) (nm : List Nat) (permission : Int) (junk : Nat → Nat)
    (hfree : 0 < s.superobj.FreeInodes) (hex : IsFileExist s nm = true)
    (hp : permission = 1 ∨ permission = 2 ∨ permission = 3) :
    CreateFile s (some nm) permission junk = some (ERR_FILE_ALREADY_EXIST, s) := by
  unfold CreateFile
  have h1 : ¬ (permission < 1 ∨ permission > 3) := by omega
  have h2 : ¬ s.superobj.FreeInodes = 0 := by omega
  simp only [h1, h2, hex, if_true, if_false]

theorem CreateFile_duplicate_witness :
    0 < exA.superobj.FreeInodes ∧ IsFileExist exA (bytes "a.txt") = true ∧
    CreateFile exA (some (bytes "a.txt")) 3 junk0 = some (ERR_FILE_ALREADY_EXIST, exA) :=
  ⟨by decide, by decide,
    CreateFile_duplicate exA (bytes "a.txt") 3 junk0 (by decide) (by decide) (by decide)⟩

/-! ## Success of `CreateFile` -/

theorem exists_free_inode {s : FS} (w : WF s) (h : s.superobj.FreeInodes ≠ 0) :
    ∃ t, s.head.findIdx? (fun temp => temp.FileType == 0) = some t := by
  have hpos : 0 < s.head.countP (fun ino => ino.FileType == 0) := by
    have := w.free
    omega
  obtain ⟨x, hx, hpx⟩ := List.countP_pos_iff.1 hpos
  have hsome : (s.head.findIdx? (fun temp => temp.FileType == 0)).isSome = true := by
    rw [List.findIdx?_isSome]
    exact List.any_eq_true.2 ⟨x, hx, hpx⟩
  exact Option.isSome_iff_exists.1 hsome

theorem exists_free_entry {s : FS} (w : WF s) :
    ∃ i, (List.range' 3 (MAXOPENFILES - 3)).find? (fun i => (slot s.UFDT i).isNone) = some i := by
  by_contra hc
  have hnone : (List.range' 3 (MAXOPENFILES - 3)).find? (fun i => (slot s.UFDT i).isNone)
      = none := by
    cases hf : (List.range' 3 (MAXOPENFILES - 3)).find? (fun i => (slot s.UFDT i).isNone) with
    | none => rfl
    | some i => exact absurd ⟨i, hf⟩ hc
  rw [List.find?_range'_eq_none] at hnone
  have hocc : ∀ i, 3 ≤ i → i < 20 → ∃ ft, slot s.UFDT i = some ft := by
    intro i h3 h20
    have := hnone i h3 (by simp only [MAXOPENFILES]; omega)
    cases hs : slot s.UFDT i with
    | none => rw [hs] at this; simp at this
    | some ft => exact ⟨ft, rfl⟩
  let f : Nat → Nat := fun i =>
    match slot s.UFDT i with
    | some ft => ft.ptrinode
    | none => 0
  have hmaps : ∀ i ∈ Finset.Ico 3 20, f i ∈ Finset.range 5 := by
    intro i hi
    rw [Finset.mem_Ico] at hi
    obtain ⟨ft, hft⟩ := hocc i hi.1 hi.2
    obtain ⟨ino, hino, _⟩ := w.bound i ft hft
    have hlt : ft.ptrinode < s.head.length := by
      by_contra hge
      simp [List.getElem?_eq_none (Nat.le_of_not_lt hge)] at hino
    rw [w.headLen] at hlt
    simp only [f, hft, Finset.mem_range]
    exact hlt
  obtain ⟨x, hx, y, hy, hxy, hfxy⟩ :=
    Finset.exists_ne_map_eq_of_card_lt_of_maps_to (by simp) hmaps
  rw [Finset.mem_Ico] at hx hy
  obtain ⟨fx, hfx⟩ := hocc x hx.1 hx.2
  obtain ⟨fy, hfy⟩ := hocc y hy.1 hy.2
  simp only [f, hfx, hfy] at hfxy
  exact hxy (w.inj x y fx fy hfx hfy hfxy)

theorem IsFileExist_false_iff (s : FS) (nm : List Nat) :
    IsFileExist s nm = false ↔ ¬ IsFileExist s nm = true := by
  cases IsFileExist s nm <;> simp

/-- In a well-formed state `CreateFile` succeeds when its four checks pass
and the copy of the name ends before the member `next` of the inode. -/
theorem CreateFile_ok {s : FS} (w : WF s) (nm : List Nat) (permission : Int)
    (junk : Nat → Nat) (hp : 1 ≤ permission ∧ permission ≤ 3)
    (hfree : s.superobj.FreeInodes ≠ 0) (hnew : IsFileExist s nm = false)
    (hfit : (cstr nm).length < NEXTOFFSET) :
    ∃ t i temp, Creates s nm permission t i temp ∧
      CreateFile s (some nm) permission junk =
        some ((i : Int), createState s nm permission junk t i temp) := by
  obtain ⟨t, ht⟩ := exists_free_inode w hfree
  obtain ⟨i, hi⟩ := exists_free_entry w
  obtain ⟨htl, _, _⟩ := List.findIdx?_eq_some_iff_getElem.1 ht
  have htemp : s.head[t]? = some s.head[t] := List.getElem?_eq_getElem htl
  have hfit2 : (cstr nm).length < NEXTOFFSET
      ∨ ((cstr nm).length = NEXTOFFSET ∧ t + 1 = s.head.length) := Or.inl hfit
  refine ⟨t, i, s.head[t], ⟨hp, hfree, hnew, ht, hi, htemp, hfit2⟩, ?_⟩
  unfold CreateFile
  have h1 : ¬ (permission < 1 ∨ permission > 3) := by omega
  simp only [h1, hfree, hnew, ht, hi, htemp, hfit2, if_true, if_false]
  simp

theorem IsFileExist_createState {s : FS} {nm : List Nat} {permission : Int} {t i : Nat}
    {temp : Inode} (junk : Nat → Nat) (h : Creates s nm permission t i temp) (n2 : List Nat) :
    IsFileExist (createState s nm permission junk t i temp) n2 = true ↔
      (IsFileExist s n2 = true ∨ cstr n2 = (createInode temp nm permission junk).FileName) := by
  obtain ⟨hfree, htlt, _, _, _, _, _⟩ := h.facts
  have hhead : ∀ k, (createState s nm permission junk t i temp).head[k]? =
      if t = k then some (createInode temp nm permission junk) else s.head[k]? := by
    intro k
    simp only [createState, List.getElem?_set, htlt, if_true]
  rw [IsFileExist_iff, IsFileExist_iff]
  constructor
  · rintro ⟨k, ino, hk, hn, hr⟩
    rw [hhead] at hk
    split at hk
    · simp only [Option.some.injEq] at hk
      rw [← hk] at hn
      simp only [createInode, cstr_idem] at hn
      exact Or.inr hn
    · exact Or.inl ⟨k, ino, hk, hn, hr⟩
  · rintro (⟨k, ino, hk, hn, hr⟩ | heq)
    · refine ⟨k, ino, ?_, hn, hr⟩
      rw [hhead, if_neg]
      · exact hk
      · intro htk
        subst htk
        rw [h.at_t] at hk
        simp only [Option.some.injEq] at hk
        rw [← hk, hfree] at hr
        simp at hr
    · refine ⟨t, createInode temp nm permission junk, by rw [hhead, if_pos rfl], ?_, rfl⟩
      simp only [createInode, cstr_idem]
      exact heq

theorem CreateFile_step {s : FS} (w : WF s) (nm : List Nat) (permission : Int)
    (junk : Nat → Nat) (hp : permission = 1 ∨ permission = 2 ∨ permission = 3)
    (hfree : 0 < s.superobj.FreeInodes) (hnew : ¬ IsFileExist s nm = true)
    (hfit : (cstr nm).length < FILENAMESIZE + 4) :
    ∃ (d : Int) (s1 : FS), CreateFile s (some nm) permission junk = some (d, s1) ∧ 0 ≤ d ∧
      WF s1 ∧ s1.superobj.FreeInodes = s.superobj.FreeInodes - 1 ∧
      ∀ n2, IsFileExist s1 n2 = true ↔ (IsFileExist s n2 = true ∨ cstr n2 = cstr nm) := by
  obtain ⟨t, i, temp, hc, hcall⟩ := CreateFile_ok w nm permission junk (by omega) (by omega)
    ((IsFileExist_false_iff s nm).2 hnew)
    (by simp only [FILENAMESIZE, NEXTOFFSET] at hfit ⊢; omega)
  refine ⟨i, _, hcall, by omega, WF_create junk w hc, rfl, ?_⟩
  intro n2
  rw [IsFileExist_createState junk hc, createInode_FileName, if_pos hfit]

theorem IsFileExist_boot (nm : List Nat) :
    ¬ IsFileExist StartAuxillaryDataInitialisation nm = true := by
  rw [IsFileExist_iff]
  rintro ⟨k, ino, hk, _, hr⟩
  have := WF_boot.freeInode k ino hk
  have h2 := WF_boot.ftype k ino hk
  rcases h2 with h0 | h1
  · rw [h0] at hr; simp at hr
  · have hb : StartAuxillaryDataInitialisation.head = [newn 1, newn 2, newn 3, newn 4, newn 5] := by
      decide
    rw [hb] at hk
    rcases k with _ | _ | _ | _ | _ | k <;> simp at hk <;> rw [← hk] at h1 <;> simp [newn] at h1

/-- Starting from the boot state, five `CreateFile` calls with names that
are pairwise distinct C strings of fewer than 24 bytes (for which the string
at `FileName` is the name) and permissions 1, 2 or 3 all return a descriptor
and leave `FreeInodes` at 0; every further `CreateFile` call with a name and
a permission 1, 2 or 3 returns `ERR_NO_INODES` in an unchanged state. -/
theorem five_creates_exhaust_inodes
    (n1 n2 n3 n4 n5 : List Nat) (p1 p2 p3 p4 p5 : Int) (j1 j2 j3 j4 j5 : Nat → Nat)
    (hfit : ∀ n ∈ [n1, n2, n3, n4, n5], (cstr n).length < FILENAMESIZE + 4)
    (hdist : ([n1, n2, n3, n4, n5].map cstr).Nodup)
    (hperm : ∀ p ∈ [p1, p2, p3, p4, p5], p = 1 ∨ p = 2 ∨ p = 3) :
    ∃ (d1 d2 d3 d4 d5 : Int) (s1 s2 s3 s4 s5 : FS),
      CreateFile StartAuxillaryDataInitialisation (some n1) p1 j1 = some (d1, s1) ∧ 0 ≤ d1 ∧
      CreateFile s1 (some n2) p2 j2 = some (d2, s2) ∧ 0 ≤ d2 ∧
      CreateFile s2 (some n3) p3 j3 = some (d3, s3) ∧ 0 ≤ d3 ∧
      CreateFile s3 (some n4) p4 j4 = some (d4, s4) ∧ 0 ≤ d4 ∧
      CreateFile s4 (some n5) p5 j5 = some (d5, s5) ∧ 0 ≤ d5 ∧
      s5.superobj.FreeInodes = 0 ∧
      ∀ (nm : List Nat) (p : Int) (j : Nat → Nat), p = 1 ∨ p = 2 ∨ p = 3 →
        CreateFile s5 (some nm) p j = some (ERR_NO_INODES, s5) := by
  simp only [List.mem_cons, List.mem_singleton, List.not_mem_nil, or_false, forall_eq_or_imp,
    forall_eq] at hfit hperm
  simp only [List.map_cons, List.map_nil, List.nodup_cons, List.mem_cons, List.mem_singleton,
    List.not_mem_nil, or_false, not_or, List.nodup_nil, and_true, not_false_eq_true] at hdist
  obtain ⟨⟨h12, h13, h14, h15⟩, ⟨h23, h24, h25⟩, ⟨h34, h35⟩, h45⟩ := hdist
  obtain ⟨f1, f2, f3, f4, f5⟩ := hfit
  obtain ⟨q1, q2, q3, q4, q5⟩ := hperm
  have hb : StartAuxillaryDataInitialisation.superobj.FreeInodes = 5 := by decide
  obtain ⟨d1, s1, c1, e1, w1, r1, x1⟩ := CreateFile_step WF_boot n1 p1 j1 q1 (by omega)
    (IsFileExist_boot n1) f1
  obtain ⟨d2, s2, c2, e2, w2, r2, x2⟩ := CreateFile_step w1 n2 p2 j2 q2 (by omega)
    (by rw [x1]; rintro (h | h); exact IsFileExist_boot _ h; exact h12 h.symm) f2
  obtain ⟨d3, s3, c3, e3, w3, r3, x3⟩ := CreateFile_step w2 n3 p3 j3 q3 (by omega)
    (by rw [x2, x1]; rintro ((h | h) | h); exact IsFileExist_boot _ h; exact h13 h.symm;
        exact h23 h.symm) f3
  obtain ⟨d4, s4, c4, e4, w4, r4, x4⟩ := CreateFile_step w3 n4 p4 j4 q4 (by omega)
    (by rw [x3, x2, x1]; rintro (((h | h) | h) | h); exact IsFileExist_boot _ h;
        exact h14 h.symm; exact h24 h.symm; exact h34 h.symm) f4
  obtain ⟨d5, s5, c5, e5, w5, r5, x5⟩ := CreateFile_step w4 n5 p5 j5 q5 (by omega)
    (by rw [x4, x3, x2, x1]; rintro ((((h | h) | h) | h) | h); exact IsFileExist_boot _ h;
        exact h15 h.symm; exact h25 h.symm; exact h35 h.symm; exact h45 h.symm) f5
  have hzero : s5.superobj.FreeInodes = 0 := by omega
  refine ⟨d1, d2, d3, d4, d5, s1, s2, s3, s4, s5, c1, e1, c2, e2, c3, e3, c4, e4, c5, e5,
    hzero, ?_⟩
  intro nm p j hp
  unfold CreateFile
  have h1 : ¬ (p < 1 ∨ p > 3) := by omega
  simp only [h1, hzero, if_true, if_false]

theorem five_creates_exhaust_inodes_witness :
    (∀ n ∈ [bytes "a", bytes "b", bytes "c", bytes "d", bytes "e"],
      (cstr n).length < FILENAMESIZE + 4) ∧
    ([bytes "a", bytes "b", bytes "c", bytes "d", bytes "e"].map cstr).Nodup ∧
    (∀ p ∈ [(3 : Int), 1, 2, 3, 3], p = 1 ∨ p = 2 ∨ p = 3) ∧
    ∃ (d1 d2 d3 d4 d5 : Int) (s1 s2 s3 s4 s5 : FS),
      CreateFile StartAuxillaryDataInitialisation (some (bytes "a")) 3 junk0 = some (d1, s1) ∧
      0 ≤ d1 ∧
      CreateFile s1 (some (bytes "b")) 1 junk0 = some (d2, s2) ∧ 0 ≤ d2 ∧
      CreateFile s2 (some (bytes "c")) 2 junk0 = some (d3, s3) ∧ 0 ≤ d3 ∧
      CreateFile s3 (some (bytes "d")) 3 junk0 = some (d4, s4) ∧ 0 ≤ d4 ∧
      CreateFile s4 (some (bytes "e")) 3 junk0 = some (d5, s5) ∧ 0 ≤ d5 ∧
      s5.superobj.FreeInodes = 0 ∧
      ∀ (nm : List Nat) (p : Int) (j : Nat → Nat), p = 1 ∨ p = 2 ∨ p = 3 →
        CreateFile s5 (some nm) p j = some (ERR_NO_INODES, s5) :=
  ⟨by decide, by decide, by decide,
    five_creates_exhaust_inodes (bytes "a") (bytes "b") (bytes "c") (bytes "d") (bytes "e")
      3 1 2 3 3 junk0 junk0 junk0 junk0 junk0 (by decide) (by decide) (by decide)⟩

/-- The ends of the range of names: with 51 bytes the copy ends on the last
byte of the member `Buffer`, which is assigned afterwards, and the call
returns; with 52 bytes its NUL lands on the pointer `next` of the first
inode. -/
theorem CreateFile_name_reaches_next :
    (∃ s1, CreateFile StartAuxillaryDataInitialisation (some (List.replicate 51 97)) 3 junk0
      = some (3, s1)) ∧
    CreateFile StartAuxillaryDataInitialisation (some (List.replicate 52 97)) 3 junk0 = none :=
  ⟨⟨exec StartAuxillaryDataInitialisation [.create (some (List.replicate 51 97)) 3 junk0],
    by decide⟩, by decide⟩

/-- C5, the defect: `CreateFile` copies the name with `strcpy` into the 20
bytes of `FileName` without a check of its length.  After `CreateFile` of a
name of 24 bytes the string at `FileName` is that name followed by the
character `2` (the lowest byte of `FileSize`), so the next `CreateFile`, with
that string of 25 bytes as its name, a name distinct from the first, returns
`ERR_FILE_ALREADY_EXIST` in an unchanged state: of five calls with pairwise
distinct non-empty names the second fails, and `FreeInodes` is 1 after the
five calls, not 0. -/
theorem CreateFile_refuses_new_name :
    ([name24, name25, bytes "c", bytes "d", bytes "e"].map cstr).Nodup ∧
    (∀ n ∈ [name24, name25, bytes "c", bytes "d", bytes "e"], cstr n ≠ []) ∧
    CreateFile StartAuxillaryDataInitialisation (some name24) 3 junk0 = some (3, ex24) ∧
    CreateFile ex24 (some name25) 3 junk0 = some (ERR_FILE_ALREADY_EXIST, ex24) ∧
    (exec StartAuxillaryDataInitialisation
      [.create (some name24) 3 junk0, .create (some name25) 3 junk0,
       .create (some (bytes "c")) 3 junk0, .create (some (bytes "d")) 3 junk0,
       .create (some (bytes "e")) 3 junk0]).superobj.FreeInodes = 1 :=
  ⟨by decide, by decide, by decide, by decide, by decide⟩

/-- C6 as stated fails: in the boot state `CreateFile ("", 3)` does not return
`ERR_INVALID_PARAMETER`; it returns descriptor 3 and creates a file whose
name is the empty string. -/
theorem CreateFile_empty_name :
    ∃ s1, CreateFile StartAuxillaryDataInitialisation (some []) 3 junk0 = some (3, s1) ∧
      s1.superobj.FreeInodes = 4 ∧ IsFileExist s1 [] = true :=
  ⟨exec StartAuxillaryDataInitialisation [.create (some []) 3 junk0],
    by decide, by decide, by decide⟩

/-- C6, amended: `CreateFile` called with a missing name (`NULL`) returns
`ERR_INVALID_PARAMETER` in an unchanged state, whatever the state and the
permission; the empty string is not rejected as a parameter: with a
permission 1, 2 or 3 the call with it never returns `ERR_INVALID_PARAMETER`. -/
theorem CreateFile_null_name (s : FS) (permission : Int) (junk : Nat → Nat) :
    CreateFile s none permission junk = some (ERR_INVALID_PARAMETER, s) ∧
    ((permission = 1 ∨ permission = 2 ∨ permission = 3) →
      ∀ s1, CreateFile s (some []) permission junk ≠ some (ERR_INVALID_PARAMETER, s1)) := by
  refine ⟨rfl, ?_⟩
  intro hp s1 h
  rcases CreateFile_inv h with ⟨_, hs⟩ | ⟨nm, t, i, temp, _, _, hri, _⟩
  · subst hs
    unfold CreateFile at h
    have h1 : ¬ (permission < 1 ∨ permission > 3) := by omega
    simp only [h1, if_false] at h
    split at h
    · simp at h
    · split at h
      · simp at h
      · split at h
        · simp at h
        · split at h
          · simp at h
          · split at h
            · simp at h
            · split at h
              · simp only [Option.some.injEq, Prod.mk.injEq, ERR_INVALID_PARAMETER] at h
                omega
              · simp at h
  · simp only [ERR_INVALID_PARAMETER] at hri
    omega

theorem CreateFile_null_name_witness :
    CreateFile exA none 3 junk0 = some (ERR_INVALID_PARAMETER, exA) ∧
    ∀ s1, CreateFile exA (some []) 3 junk0 ≠ some (ERR_INVALID_PARAMETER, s1) :=
  ⟨(CreateFile_null_name exA 3 junk0).1, (CreateFile_null_name exA 3 junk0).2 (by decide)⟩

/-- C7: `CreateFile` with a permission outside 1, 2, 3 returns
`ERR_INVALID_PARAMETER` in an unchanged state, for every state and every
name (also a missing one); with a permission 1, 2 or 3 and a name it never
returns `ERR_INVALID_PARAMETER`. -/
theorem CreateFile_permission (s : FS) (permission : Int) (junk : Nat → Nat) :
    ((permission < 1 ∨ 3 < permission) →
      ∀ name, CreateFile s name permission junk = some (ERR_INVALID_PARAMETER, s)) ∧
    ((permission = 1 ∨ permission = 2 ∨ permission = 3) →
      ∀ nm s1, CreateFile s (some nm) permission junk ≠ some (ERR_INVALID_PARAMETER, s1)) := by
  constructor
  · intro hp name
    unfold CreateFile
    cases name with
    | none => rfl
    | some nm =>
      have h1 : permission < 1 ∨ permission > 3 := by omega
      simp only [h1, if_true]
  · intro hp nm s1 h
    have h1 : ¬ (permission < 1 ∨ permission > 3) := by omega
    unfold CreateFile at h
    simp only [h1, if_false] at h
    split at h
    · simp at h
    · split at h
      · simp at h
      · split at h
        · simp at h
        · split at h
          · simp at h
          · split at h
            · simp at h
            · split at h
              · simp only [Option.some.injEq, Prod.mk.injEq, ERR_INVALID_PARAMETER] at h
                omega
              · simp at h

theorem CreateFile_permission_witness :
    (∀ name, CreateFile exA name 7 junk0 = some (ERR_INVALID_PARAMETER, exA)) ∧
    (∀ nm s1, CreateFile exA (some nm) 2 junk0 ≠ some (ERR_INVALID_PARAMETER, s1)) :=
  ⟨(CreateFile_permission exA 7 junk0).1 (by decide),
    (CreateFile_permission exA 2 junk0).2 (by decide)⟩

/-! ## Success of `WriteFile` and `ReadFile` -/

theorem hasBit_WRITE_iff {p : Int} (h : 1 ≤ p ∧ p ≤ 3) : hasBit p WRITE ↔ WRITE ≤ p := by
  unfold hasBit
  simp only [WRITE]
  omega

theorem takeWhile_take_of_le {p : Nat → Bool} :
    ∀ (l : List Nat) (n : Nat), n ≤ (l.takeWhile p).length → (l.takeWhile p).take n = l.take n
  | [], n, _ => by simp
  | a :: l, 0, _ => by simp
  | a :: l, n + 1, h => by
    by_cases hp : p a = true
    · simp only [List.takeWhile_cons, hp, if_true, List.length_cons] at h ⊢
      simp only [List.take_succ_cons]
      rw [takeWhile_take_of_le l n (by omega)]
    · simp [List.takeWhile_cons, hp] at h

theorem strncpyBytes_of_le (d : List Nat) (n : Nat) (h : n ≤ (cstr d).length) :
    strncpyBytes d n = d.take n := by
  unfold strncpyBytes
  have hlen : ((cstr d).take n).length = n := by
    rw [List.length_take]; omega
  rw [hlen, Nat.sub_self]
  unfold cstr at h ⊢
  rw [takeWhile_take_of_le d n h]
  simp

theorem poke_drop_take (mem : List Nat) (off : Nat) (b : List Nat) (h : off ≤ mem.length) :
    ((poke mem off b).drop off).take b.length = b := by
  unfold poke
  have hl : (mem.take off).length = off := by
    rw [List.length_take]; omega
  rw [List.append_assoc, List.drop_append_of_le_length (by omega)]
  rw [List.drop_of_length_le (by omega), List.nil_append]
  rw [List.take_append_of_le_length (by omega), List.take_length]

/-- In a reachable state, the descriptor of an occupied entry is below
`MAXOPENFILES`, and the entry and its inode satisfy `Open`. -/
theorem occupied_facts {s : FS} (hs : Reachable s) {fd : Int} {ft : FileTable} {ino : Inode}
    (hfd : 0 ≤ fd) (hft : slot s.UFDT fd.toNat = some ft)
    (hino : s.head[ft.ptrinode]? = some ino) :
    ¬ (fd < 0 ∨ fd > MAXOPENFILES) ∧ ¬ (MAXOPENFILES ≤ fd.toNat) ∧ Open ft ino := by
  have w := hs.wf
  have hlt := slot_lt hft
  rw [w.ufdtLen] at hlt
  obtain ⟨ino0, hino0, ho⟩ := w.bound _ _ hft
  rw [hino] at hino0
  simp only [Option.some.injEq] at hino0
  subst hino0
  simp only [MAXOPENFILES] at hlt ⊢
  exact ⟨by omega, by omega, ho⟩

/-- In a reachable state `WriteFile` succeeds on an occupied entry whose
inode permits writing when the size is in `0 .. 50 - WriteOffset`. -/
theorem WriteFile_ok {s : FS} (hs : Reachable s) {fd size : Int} {ft : FileTable}
    {ino : Inode} (d : List Nat) (hfd : 0 ≤ fd) (hft : slot s.UFDT fd.toNat = some ft)
    (hino : s.head[ft.ptrinode]? = some ino) (hperm : WRITE ≤ ino.Permission)
    (h0 : 0 ≤ size) (hspace : size ≤ (MAXFILESIZE : Int) - ft.WriteOffset) :
    ∃ buf, ino.Buffer = some buf ∧ buf.length = MAXFILESIZE ∧ toSizeT size = size.toNat ∧
      0 ≤ ft.WriteOffset ∧ ft.WriteOffset.toNat + size.toNat ≤ MAXFILESIZE ∧
      WriteFile s fd (some d) size = some (size, writeState s fd.toNat ft ino buf d size) := by
  obtain ⟨h1, h2, ho⟩ := occupied_facts hs hfd hft hino
  obtain ⟨buf, hbuf, hbl⟩ := ho.buf
  have hwr := ho.wr
  have hsz : toSizeT size = size.toNat := by
    apply toSizeT_nonneg h0
    simp only [MAXFILESIZE, INT_MAX] at hspace hwr ⊢
    omega
  have hin : 0 ≤ ft.WriteOffset ∧ ft.WriteOffset.toNat + toSizeT size ≤ MAXFILESIZE := by
    rw [hsz]
    simp only [MAXFILESIZE] at hspace ⊢
    omega
  refine ⟨buf, hbuf, hbl, hsz, hin.1, hsz ▸ hin.2, ?_⟩
  unfold WriteFile
  have h3 : ¬ ino.Permission < WRITE := by omega
  have h4 : ¬ (MAXFILESIZE : Int) - ft.WriteOffset < size := by omega
  simp only [h1, h2, hft, hino, h3, h4, hbuf, hin, if_false]
  simp

/-- In a reachable state `ReadFile` succeeds on an occupied entry whose inode
has a permission of at least `READ` when the size is in `1 .. 50 - ReadOffset`,
whatever the destination. -/
theorem ReadFile_ok {s : FS} (hs : Reachable s) {fd size : Int} {ft : FileTable}
    {ino : Inode} (dst : List Nat) (hfd : 0 ≤ fd) (hft : slot s.UFDT fd.toNat = some ft)
    (hino : s.head[ft.ptrinode]? = some ino) (hperm : READ ≤ ino.Permission)
    (h0 : 0 < size) (hspan : size ≤ (MAXFILESIZE : Int) - ft.ReadOffset) :
    ∃ buf, ino.Buffer = some buf ∧ buf.length = MAXFILESIZE ∧ toSizeT size = size.toNat ∧
      ReadFile s fd (some dst) size = some (size, readState s fd.toNat ft size,
        some (poke dst 0 (strncpyBytes (buf.drop ft.ReadOffset.toNat) size.toNat))) := by
  obtain ⟨h1, h2, ho⟩ := occupied_facts hs hfd hft hino
  obtain ⟨buf, hbuf, hbl⟩ := ho.buf
  have hrd := ho.rd
  have hsz : toSizeT size = size.toNat := by
    apply toSizeT_nonneg (by omega)
    simp only [MAXFILESIZE, INT_MAX] at hspan hrd ⊢
    omega
  have hin : 0 ≤ ft.ReadOffset := hrd.1
  refine ⟨buf, hbuf, hbl, hsz, ?_⟩
  unfold ReadFile
  have h3 : ¬ ino.Permission < READ := by omega
  have h4 : ¬ (MAXFILESIZE : Int) - ft.ReadOffset < size := by omega
  have h5 : ¬ size ≤ 0 := by omega
  simp only [h1, h2, hft, hino, h3, h4, h5, hbuf, hin, if_false]
  simp [hsz]

/-- `WriteFile` with `NULL` as data: with size 0 `strncpy` reads nothing and
the call returns 0 in an unchanged state; with size 1 it reads from `NULL`. -/
theorem WriteFile_null_data :
    WriteFile exA 3 none 0 = some (0, exA) ∧ WriteFile exA 3 none 1 = none := by
  decide

/-- A negative size: `WriteFile` has no check of it (`ReadFile` returns
`ERR_INVALID_PARAMETER`). With size -1 on the open file of `exA` no check of
`WriteFile` fails and `strncpy` is called with the count `(size_t) -1`, which
is 18446744073709551615 bytes for a buffer of 50: the call does not return. -/
theorem WriteFile_negative_size :
    toSizeT (-1) = 18446744073709551615 ∧
    WriteFile exA 3 (some (bytes "x")) (-1) = none ∧
    ReadFile exA 3 (some [0]) (-1) = some (ERR_INVALID_PARAMETER, exA, some [0]) := by
  decide

/-- C8 as stated fails: on the file of `exA` (descriptor 3, permission 3,
`WriteOffset` 0) `WriteFile` with the three bytes 104, 0, 105 and size 3
returns 3, and the buffer then starts with 104, 0, 0 and not with the three
bytes of the data: `strncpy` stops at the NUL byte and pads with NUL. And
with size -1, which is at most `50 - 0`, the call does not return the size. -/
theorem WriteFile_stops_at_nul :
    WriteFile exA 3 (some [104, 0, 105]) 3 = some (3, exNul) ∧
    (bufferOf exNul 3).map (List.take 3) = some [104, 0, 0] ∧
    (bufferOf exNul 3).map (List.take 3) ≠ some [104, 0, 105] ∧
    WriteFile exA 3 (some [104, 0, 105]) (-1) = none := by
  decide

/-- C8, amended: in a reachable state, for an occupied entry `UFDT[fd]` whose
inode permission includes `WRITE`, with write offset `w`, for every size with
`0 ≤ size ≤ FileSize - w` and every data whose first `size` bytes are not NUL,
`WriteFile` returns `size`, sets the `WriteOffset` of the entry to `w + size`,
adds `size` to the `ActualFileSize` of the inode, and the buffer bytes at
`w .. w + size - 1` are the first `size` bytes of the data. -/
theorem WriteFile_success (s : FS) (fd size : Int) (d : List Nat) (ft : FileTable)
    (ino : Inode) (hs : Reachable s) (hfd : 0 ≤ fd) (hft : slot s.UFDT fd.toNat = some ft)
    (hino : s.head[ft.ptrinode]? = some ino) (hperm : hasBit ino.Permission WRITE)
    (h0 : 0 ≤ size) (hspace : size ≤ ino.FileSize - ft.WriteOffset)
    (hdata : size.toNat ≤ (cstr d).length) :
    ∃ s1 ft1 ino1 buf1, WriteFile s fd (some d) size = some (size, s1) ∧
      slot s1.UFDT fd.toNat = some ft1 ∧ ft1.WriteOffset = ft.WriteOffset + size ∧
      s1.head[ft.ptrinode]? = some ino1 ∧
      ino1.ActualFileSize = ino.ActualFileSize + size ∧
      ino1.Buffer = some buf1 ∧
      (buf1.drop ft.WriteOffset.toNat).take size.toNat = d.take size.toNat := by
  obtain ⟨_, _, ho⟩ := occupied_facts hs hfd hft hino
  have hp2 := (hasBit_WRITE_iff ho.perm).1 hperm
  rw [ho.size] at hspace
  obtain ⟨buf, hbuf, hbl, hsz, hw0, hwn, hcall⟩ := WriteFile_ok hs d hfd hft hino hp2 h0 hspace
  have hfu := slot_lt hft
  have hpl : ft.ptrinode < s.head.length := by
    by_contra hc
    simp [List.getElem?_eq_none (Nat.le_of_not_lt hc)] at hino
  refine ⟨_, { ft with WriteOffset := ft.WriteOffset + size }, writeInode ft ino buf d size, _,
    hcall, ?_, rfl, ?_, rfl, rfl, ?_⟩
  · simp [writeState, slot_set, hfu]
  · simp [writeState, hpl]
  · rw [hsz, strncpyBytes_of_le d _ hdata]
    have hlen : (d.take size.toNat).length = size.toNat := by
      rw [List.length_take]
      have := cstr_length_le d
      omega
    have := poke_drop_take buf ft.WriteOffset.toNat (d.take size.toNat) (by rw [hbl]; omega)
    rw [hlen] at this
    exact this

theorem WriteFile_success_witness :
    Reachable exA ∧ (0 : Int) ≤ 3 ∧
    ∃ ft ino, slot exA.UFDT (3 : Int).toNat = some ft ∧ exA.head[ft.ptrinode]? = some ino ∧
      hasBit ino.Permission WRITE ∧ (0 : Int) ≤ 5 ∧ (5 : Int) ≤ ino.FileSize - ft.WriteOffset ∧
      (5 : Int).toNat ≤ (cstr (bytes "hello")).length ∧
      ∃ s1 ft1 ino1 buf1, WriteFile exA 3 (some (bytes "hello")) 5 = some (5, s1) ∧
        slot s1.UFDT (3 : Int).toNat = some ft1 ∧ ft1.WriteOffset = ft.WriteOffset + 5 ∧
        s1.head[ft.ptrinode]? = some ino1 ∧
        ino1.ActualFileSize = ino.ActualFileSize + 5 ∧
        ino1.Buffer = some buf1 ∧
        (buf1.drop ft.WriteOffset.toNat).take (5 : Int).toNat = (bytes "hello").take (5 : Int).toNat :=
  ⟨exA_reachable, by decide,
    { ReadOffset := 0, WriteOffset := 0, Mode := 3, ptrinode := 0 },
    createInode (newn 1) (bytes "a.txt") 3 junk0, by decide, by decide, by decide, by decide,
    by decide, by decide,
    WriteFile_success exA 3 5 (bytes "hello") _ _ exA_reachable (by decide) (by decide)
      (by decide) (by decide) (by decide) (by decide) (by decide)⟩

/-- C10: in a reachable state, for an occupied entry `UFDT[fd]`, every data
and every size: when the inode permission does not include `WRITE`,
`WriteFile` returns `ERR_PERMISSION_DENIED` in an unchanged state (so
`ActualFileSize`, the buffer and `WriteOffset` are unchanged); when it
includes `WRITE`, `WriteFile` never returns `ERR_PERMISSION_DENIED`. -/
theorem WriteFile_permission (s : FS) (fd size : Int) (data : Option (List Nat))
    (ft : FileTable) (ino : Inode) (hs : Reachable s) (hfd : 0 ≤ fd)
    (hft : slot s.UFDT fd.toNat = some ft) (hino : s.head[ft.ptrinode]? = some ino) :
    (¬ hasBit ino.Permission WRITE →
      WriteFile s fd data size = some (ERR_PERMISSION_DENIED, s)) ∧
    (hasBit ino.Permission WRITE →
      ∀ s1, WriteFile s fd data size ≠ some (ERR_PERMISSION_DENIED, s1)) := by
  obtain ⟨h1, h2, ho⟩ := occupied_facts hs hfd hft hino
  have hiff := hasBit_WRITE_iff ho.perm
  constructor
  · intro hp
    have h3 : ino.Permission < WRITE := by
      by_contra hc
      exact hp (hiff.2 (by omega))
    unfold WriteFile
    simp only [h1, h2, hft, hino, h3, if_true, if_false]
  · intro hp s1 h
    have h3 : ¬ ino.Permission < WRITE := by
      have := hiff.1 hp
      omega
    unfold WriteFile at h
    simp only [h1, h2, hft, hino, h3, if_false] at h
    split at h
    · simp at h
    · split at h
      · simp at h
      · split at h
        · rename_i hin
          simp only [Option.some.injEq, Prod.mk.injEq] at h
          rw [h.1] at hin
          have hbig : toSizeT ERR_PERMISSION_DENIED = 18446744073709551611 := by decide
          rw [hbig] at hin
          simp only [MAXFILESIZE] at hin
          omega
        · simp at h

theorem WriteFile_permission_witness :
    Reachable exB ∧ (0 : Int) ≤ 3 ∧
    slot exB.UFDT (3 : Int).toNat =
      some { ReadOffset := 0, WriteOffset := 0, Mode := 1, ptrinode := 0 } ∧
    exB.head[0]? = some (createInode (newn 1) (bytes "b.txt") 1 junk0) ∧
    WriteFile exB 3 (some (bytes "x")) 1 = some (ERR_PERMISSION_DENIED, exB) ∧
    Reachable exA ∧
    slot exA.UFDT (3 : Int).toNat =
      some { ReadOffset := 0, WriteOffset := 0, Mode := 3, ptrinode := 0 } ∧
    exA.head[0]? = some (createInode (newn 1) (bytes "a.txt") 3 junk0) ∧
    ∀ s1, WriteFile exA 3 (some (bytes "x")) 1 ≠ some (ERR_PERMISSION_DENIED, s1) :=
  ⟨exB_reachable, by decide, by decide, by decide,
    (WriteFile_permission exB 3 1 (some (bytes "x"))
      { ReadOffset := 0, WriteOffset := 0, Mode := 1, ptrinode := 0 }
      (createInode (newn 1) (bytes "b.txt") 1 junk0) exB_reachable (by decide) (by decide)
      (by decide)).1 (by decide),
    exA_reachable, by decide, by decide,
    (WriteFile_permission exA 3 1 (some (bytes "x"))
      { ReadOffset := 0, WriteOffset := 0, Mode := 3, ptrinode := 0 }
      (createInode (newn 1) (bytes "a.txt") 3 junk0) exA_reachable (by decide) (by decide)
      (by decide)).2 (by decide)⟩

theorem poke_zero_full (dst b : List Nat) (h : dst.length = b.length) : poke dst 0 b = b := by
  unfold poke
  simp only [List.take_zero, List.nil_append, Nat.zero_add]
  rw [List.drop_of_length_le (by omega), List.append_nil]

/-- C9 as stated fails: after `CreateFile ("a.txt", 3)`, for the 3 data bytes
104, 0, 105, `WriteFile (3, data, 3)` returns 3 and `ReadFile (3, buf, 3)`
returns 3, and `buf` is then 104, 0, 0 and not the data. -/
theorem round_trip_fails_with_nul :
    CreateFile StartAuxillaryDataInitialisation (some (bytes "a.txt")) 3 junk0 = some (3, exA) ∧
    WriteFile exA 3 (some [104, 0, 105]) 3 = some (3, exNul) ∧
    ReadFile exNul 3 (some [0, 0, 0]) 3 = some (3, exNulRead, some [104, 0, 0]) := by
  decide

/-- C9, amended: for a file created with permission 3 in a reachable state, on
descriptor `d`, every `n` with `1 ≤ n ≤ MAXFILESIZE` and every data of `n`
bytes none of which is NUL, `WriteFile (d, data, n)` returns `n` and leaves
`ActualFileSize = n`, and the following `ReadFile (d, buf, n)` into a
destination of `n` bytes returns `n` and leaves the data in it. -/
theorem write_read_round_trip (s s1 : FS) (name : Option (List Nat)) (junk : Nat → Nat)
    (d n : Int) (data dst : List Nat) (hs : Reachable s)
    (hc : CreateFile s name 3 junk = some (d, s1)) (hd : 0 ≤ d)
    (hn : 1 ≤ n ∧ n ≤ MAXFILESIZE) (hlen : data.length = n.toNat)
    (hnul : ∀ b ∈ data, b ≠ 0) (hdst : dst.length = n.toNat) :
    ∃ s2 s3 ft ino, WriteFile s1 d (some data) n = some (n, s2) ∧
      slot s2.UFDT d.toNat = some ft ∧ s2.head[ft.ptrinode]? = some ino ∧
      ino.ActualFileSize = n ∧
      ReadFile s2 d (some dst) n = some (n, s3, some data) := by
  have w := hs.wf
  rcases CreateFile_inv hc with ⟨hneg, _⟩ | ⟨nm, t, i, temp, hname, hcr, hri, hs1⟩
  · omega
  obtain ⟨_, htlt, hi3, hi20, _, _, _⟩ := hcr.facts
  have hiu : i < s.UFDT.length := by rw [w.ufdtLen]; exact hi20
  have hdi : d.toNat = i := by omega
  have hr1 : Reachable s1 :=
    Reachable.step (.create name 3 junk) d hs (by simp [Op.typed, isInt, INT_MIN, INT_MAX]) hc
  have hft1 : slot s1.UFDT d.toNat =
      some { ReadOffset := 0, WriteOffset := 0, Mode := 3, ptrinode := t } := by
    rw [hs1, hdi]; simp [createState, slot_set, hiu]
  have hino1 : s1.head[t]? = some (createInode temp nm 3 junk) := by
    rw [hs1]; simp [createState, htlt]
  have hn50 : n ≤ 50 := by have := hn.2; simp only [MAXFILESIZE] at this; omega
  obtain ⟨buf, hbuf, hbl, hsz, _, _, hwrite⟩ :=
    WriteFile_ok hr1 data hd hft1 hino1 (by simp [createInode, WRITE]) (show 0 ≤ n by omega)
      (by simp only [MAXFILESIZE]; omega)
  have hcd : cstr data = data := by
    have := cstr_append_of_no_nul data [] hnul
    simpa [cstr] using this
  have hbytes : strncpyBytes data (toSizeT n) = data := by
    rw [hsz, strncpyBytes_of_le data _ (by rw [hcd]; omega), ← hlen, List.take_length]
  have hi1 : d.toNat < s1.UFDT.length := slot_lt hft1
  have ht1 : t < s1.head.length := by
    by_contra hge
    simp [List.getElem?_eq_none (Nat.le_of_not_lt hge)] at hino1
  have hr2 : Reachable
      (writeState s1 d.toNat { ReadOffset := 0, WriteOffset := 0, Mode := 3, ptrinode := t }
        (createInode temp nm 3 junk) buf data n) :=
    Reachable.step (.write d (some data) n) n hr1
      (by simp only [Op.typed, isInt, INT_MIN, INT_MAX, MAXOPENFILES] at hi20 ⊢; omega) hwrite
  have hft2 : slot (writeState s1 d.toNat
      { ReadOffset := 0, WriteOffset := 0, Mode := 3, ptrinode := t }
      (createInode temp nm 3 junk) buf data n).UFDT d.toNat =
      some { ReadOffset := 0, WriteOffset := 0 + n, Mode := 3, ptrinode := t } := by
    simp [writeState, slot_set, hi1]
  have hino2 : (writeState s1 d.toNat
      { ReadOffset := 0, WriteOffset := 0, Mode := 3, ptrinode := t }
      (createInode temp nm 3 junk) buf data n).head[t]? =
      some (writeInode { ReadOffset := 0, WriteOffset := 0, Mode := 3, ptrinode := t }
        (createInode temp nm 3 junk) buf data n) := by
    simp [writeState, ht1]
  obtain ⟨buf2, hbuf2, _, _, hread⟩ :=
    ReadFile_ok hr2 dst hd hft2 hino2 (by simp [createInode, READ]) (show 0 < n by omega)
      (by simp only [MAXFILESIZE]; omega)
  simp only [writeInode_Buffer, Option.some.injEq, hbytes] at hbuf2
  have hpoke : buf2 = data ++ buf.drop data.length := by
    rw [← hbuf2]
    simp [poke]
  have hread_bytes : strncpyBytes buf2 n.toNat = data := by
    have hc2 : cstr buf2 = data ++ cstr (buf.drop data.length) := by
      rw [hpoke]; exact cstr_append_of_no_nul _ _ hnul
    rw [strncpyBytes_of_le buf2 _ (by rw [hc2, List.length_append]; omega), hpoke, ← hlen]
    simp
  dsimp only at hread
  simp only [Int.toNat_zero, List.drop_zero] at hread
  rw [hread_bytes, poke_zero_full dst data (by omega)] at hread
  exact ⟨_, _, _, _, hwrite, hft2, hino2, by simp [createInode], hread⟩

theorem write_read_round_trip_witness :
    Reachable StartAuxillaryDataInitialisation ∧
    CreateFile StartAuxillaryDataInitialisation (some (bytes "a.txt")) 3 junk0 = some (3, exA) ∧
    (bytes "hello").length = (5 : Int).toNat ∧ (∀ b ∈ bytes "hello", b ≠ 0) ∧
    ∃ s2 s3 ft ino, WriteFile exA 3 (some (bytes "hello")) 5 = some (5, s2) ∧
      slot s2.UFDT (3 : Int).toNat = some ft ∧ s2.head[ft.ptrinode]? = some ino ∧
      ino.ActualFileSize = 5 ∧
      ReadFile s2 3 (some [0, 0, 0, 0, 0]) 5 = some (5, s3, some (bytes "hello")) :=
  ⟨Reachable.boot, by decide, by decide, by decide,
    write_read_round_trip StartAuxillaryDataInitialisation exA (some (bytes "a.txt")) junk0
      3 5 (bytes "hello") [0, 0, 0, 0, 0] Reachable.boot (by decide) (by decide) (by decide)
      (by decide) (by decide) (by decide)⟩

/-! ## Permission and bounds checks of `ReadFile` and `WriteFile` -/

theorem ex45_reachable : Reachable ex45 :=
  exA_reachable.exec _ (by simp [Op.typed, isInt, INT_MIN, INT_MAX])

/-- C11, the defect: the check of `ReadFile` is `Permission < READ`, which
permission 2 (`WRITE` only, the `READ` bit is not set) passes. On the file of
`exW`, created with permission 2 on descriptor 3, `ReadFile (3, buf, 1)`
returns 1, copies one byte of the buffer and moves `ReadOffset` to 1, where
`ERR_PERMISSION_DENIED` with an unchanged `ReadOffset` is due. -/
theorem ReadFile_write_only :
    CreateFile StartAuxillaryDataInitialisation (some (bytes "w.txt")) 2 junk0 = some (3, exW) ∧
    ¬ hasBit 2 READ ∧
    (slot exW.UFDT 3).map FileTable.ReadOffset = some 0 ∧
    ReadFile exW 3 (some [0]) 1 = some (1, exWRead, some [170]) ∧
    (slot exWRead.UFDT 3).map FileTable.ReadOffset = some 1 := by
  decide

/-- C12: in a reachable state, for an occupied entry `UFDT[fd]` whose inode
permission includes `WRITE`, with write offset `w`, every data and every size
with `FileSize - w < size`, `WriteFile` returns `ERR_INSUFFICIENT_SPACE` in an
unchanged state, so `WriteOffset`, `ActualFileSize` and the buffer are
unchanged. -/
theorem WriteFile_overflow (s : FS) (fd size : Int) (data : Option (List Nat))
    (ft : FileTable) (ino : Inode) (hs : Reachable s) (hfd : 0 ≤ fd)
    (hft : slot s.UFDT fd.toNat = some ft) (hino : s.head[ft.ptrinode]? = some ino)
    (hperm : hasBit ino.Permission WRITE) (hsize : ino.FileSize - ft.WriteOffset < size) :
    WriteFile s fd data size = some (ERR_INSUFFICIENT_SPACE, s) := by
  obtain ⟨h1, h2, ho⟩ := occupied_facts hs hfd hft hino
  have hp2 := (hasBit_WRITE_iff ho.perm).1 hperm
  rw [ho.size] at hsize
  have h3 : ¬ ino.Permission < WRITE := by omega
  unfold WriteFile
  simp only [h1, h2, hft, hino, h3, hsize, if_true, if_false]

theorem WriteFile_overflow_witness :
    Reachable ex45 ∧ (0 : Int) ≤ 3 ∧
    slot ex45.UFDT (3 : Int).toNat =
      some { ReadOffset := 0, WriteOffset := 45, Mode := 3, ptrinode := 0 } ∧
    (ex45.head[0]?).map Inode.FileSize = some 50 ∧
    (ex45.head[0]?).map Inode.ActualFileSize = some 45 ∧
    WriteFile ex45 3 (some (bytes "0123456789")) 10 = some (ERR_INSUFFICIENT_SPACE, ex45) :=
  ⟨ex45_reachable, by decide, by decide, by decide, by decide,
    WriteFile_overflow ex45 3 10 (some (bytes "0123456789"))
      { ReadOffset := 0, WriteOffset := 45, Mode := 3, ptrinode := 0 }
      (writeInode { ReadOffset := 0, WriteOffset := 0, Mode := 3, ptrinode := 0 }
        (createInode (newn 1) (bytes "a.txt") 3 junk0) ((List.range MAXFILESIZE).map junk0)
        (List.replicate 45 120) 45)
      ex45_reachable (by decide) (by decide) (by decide) (by decide) (by decide)⟩

/-- C13: in a reachable state, for an occupied entry `UFDT[fd]` whose inode
permission includes `READ`, with read offset `r`, every destination that is
not `NULL` and every size above 0: when `FileSize - r ≥ size`, `ReadFile`
returns `size` and moves `ReadOffset` to `r + size`; when `FileSize - r < size`
it returns `ERR_INSUFFICIENT_DATA` in an unchanged state. `ActualFileSize`
plays no part: with `ActualFileSize = 0` and `r = 0` every size in `1 .. 50`
is read. -/
theorem ReadFile_span (s : FS) (fd size : Int) (dst : List Nat) (ft : FileTable)
    (ino : Inode) (hs : Reachable s) (hfd : 0 ≤ fd) (hft : slot s.UFDT fd.toNat = some ft)
    (hino : s.head[ft.ptrinode]? = some ino) (_hperm : hasBit ino.Permission READ)
    (hsize : 0 < size) :
    (size ≤ ino.FileSize - ft.ReadOffset →
      ∃ s1 out ft1, ReadFile s fd (some dst) size = some (size, s1, some out) ∧
        slot s1.UFDT fd.toNat = some ft1 ∧ ft1.ReadOffset = ft.ReadOffset + size) ∧
    (ino.FileSize - ft.ReadOffset < size →
      ReadFile s fd (some dst) size = some (ERR_INSUFFICIENT_DATA, s, some dst)) ∧
    (ino.ActualFileSize = 0 → ft.ReadOffset = 0 → size ≤ 50 →
      ∃ s1 out, ReadFile s fd (some dst) size = some (size, s1, some out)) := by
  obtain ⟨h1, h2, ho⟩ := occupied_facts hs hfd hft hino
  have hp1 : READ ≤ ino.Permission := ho.perm.1
  have hfu := slot_lt hft
  have key : size ≤ (MAXFILESIZE : Int) - ft.ReadOffset →
      ∃ s1 out ft1, ReadFile s fd (some dst) size = some (size, s1, some out) ∧
        slot s1.UFDT fd.toNat = some ft1 ∧ ft1.ReadOffset = ft.ReadOffset + size := by
    intro hspan
    obtain ⟨buf, _, _, _, hread⟩ := ReadFile_ok hs dst hfd hft hino hp1 hsize hspan
    exact ⟨_, _, { ft with ReadOffset := ft.ReadOffset + size }, hread,
      by simp [readState, slot_set, hfu], rfl⟩
  refine ⟨?_, ?_, ?_⟩
  · intro hspan
    rw [ho.size] at hspan
    exact key hspan
  · intro hspan
    rw [ho.size] at hspan
    have h3 : ¬ ino.Permission < READ := by omega
    have h5 : ¬ size ≤ 0 := by omega
    unfold ReadFile
    simp only [h1, h2, hft, hino, h3, h5, hspan, if_true, if_false]
  · intro _ hr0 h50
    obtain ⟨s1, out, _, hread, _⟩ := key (by rw [hr0]; simp only [MAXFILESIZE]; omega)
    exact ⟨s1, out, hread⟩

theorem ReadFile_span_witness :
    Reachable exA ∧ (0 : Int) ≤ 3 ∧
    slot exA.UFDT (3 : Int).toNat =
      some { ReadOffset := 0, WriteOffset := 0, Mode := 3, ptrinode := 0 } ∧
    exA.head[0]? = some (createInode (newn 1) (bytes "a.txt") 3 junk0) ∧
    hasBit (createInode (newn 1) (bytes "a.txt") 3 junk0).Permission READ ∧
    (createInode (newn 1) (bytes "a.txt") 3 junk0).ActualFileSize = 0 ∧
    (∃ s1 out, ReadFile exA 3 (some [0]) 50 = some (50, s1, some out)) ∧
    ReadFile exA 3 (some (List.replicate 50 0)) 51 =
      some (ERR_INSUFFICIENT_DATA, exA, some (List.replicate 50 0)) :=
  ⟨exA_reachable, by decide, by decide, by decide, by decide, by decide,
    (ReadFile_span exA 3 50 [0]
      { ReadOffset := 0, WriteOffset := 0, Mode := 3, ptrinode := 0 }
      (createInode (newn 1) (bytes "a.txt") 3 junk0) exA_reachable (by decide) (by decide)
      (by decide) (by decide) (by decide)).2.2 (by decide) (by decide) (by decide),
    (ReadFile_span exA 3 51 (List.replicate 50 0)
      { ReadOffset := 0, WriteOffset := 0, Mode := 3, ptrinode := 0 }
      (createInode (newn 1) (bytes "a.txt") 3 junk0) exA_reachable (by decide) (by decide)
      (by decide) (by decide) (by decide)).2.1 (by decide)⟩

/-! ## `UnlinkFile` -/

theorem unlinkScan_ne_none {s : FS} (w : WF s) (nm : List Nat) :
    ∀ l : List Nat, unlinkScan s nm l ≠ none := by
  intro l
  induction l with
  | nil => simp [unlinkScan]
  | cons a l ih =>
    unfold unlinkScan
    split
    · exact ih
    · rename_i ft hft
      obtain ⟨ino, hino, _⟩ := w.bound a ft hft
      simp only [hino]
      split
      · simp
      · exact ih

theorem unlinkScan_none (s : FS) (nm : List Nat) :
    ∀ l : List Nat, unlinkScan s nm l = some none →
      ∀ i ∈ l, ∀ ft temp, slot s.UFDT i = some ft → s.head[ft.ptrinode]? = some temp →
        cstr temp.FileName ≠ cstr nm := by
  intro l
  induction l with
  | nil => intro _ i hi; simp at hi
  | cons a l ih =>
    intro h i hi ft temp hft htemp
    unfold unlinkScan at h
    rcases List.mem_cons.1 hi with rfl | hil
    · simp only [hft, htemp] at h
      split at h
      · simp at h
      · assumption
    · split at h
      · exact ih h i hil ft temp hft htemp
      · split at h
        · cases h
        · split at h
          · simp at h
          · exact ih h i hil ft temp hft htemp

/-- A regular inode of a well-formed state is bound by an occupied entry. -/
theorem regular_open {s : FS} (w : WF s) {k : Nat} {ino : Inode}
    (hk : s.head[k]? = some ino) (hr : ino.FileType = REGULARFILE) :
    ∃ i ft, slot s.UFDT i = some ft ∧ ft.ptrinode = k ∧ Open ft ino := by
  obtain ⟨i, ft, hft, hp⟩ := w.surj k ino hk hr
  obtain ⟨ino0, hino0, ho⟩ := w.bound i ft hft
  rw [hp, hk] at hino0
  simp only [Option.some.injEq] at hino0
  subst hino0
  exact ⟨i, ft, hft, hp, ho⟩

/-- In a well-formed state `UnlinkFile` of an existing name tears down the
entry bound to the inode of that name. -/
theorem UnlinkFile_ok {s : FS} (w : WF s) {nm : List Nat} (hex : IsFileExist s nm = true) :
    ∃ i ft temp, slot s.UFDT i = some ft ∧ s.head[ft.ptrinode]? = some temp ∧
      cstr temp.FileName = cstr nm ∧ Open ft temp ∧
      UnlinkFile s (some nm) = some (EXECUTE_SUCCESS, unlinkState s i ft.ptrinode temp) := by
  obtain ⟨k, ino, hk, hname, hreg⟩ := (IsFileExist_iff s nm).1 hex
  obtain ⟨j, fj, hfj, hpj, _⟩ := regular_open w hk hreg
  have hj20 : j ∈ List.range MAXOPENFILES := by
    have := slot_lt hfj
    rw [w.ufdtLen] at this
    exact List.mem_range.2 this
  cases hscan : unlinkScan s nm (List.range MAXOPENFILES) with
  | none => exact absurd hscan (unlinkScan_ne_none w nm _)
  | some r =>
    cases r with
    | none =>
      exact absurd hname.symm
        (unlinkScan_none s nm _ hscan j hj20 fj ino hfj (by rw [hpj]; exact hk))
    | some ip =>
      obtain ⟨i, p⟩ := ip
      obtain ⟨_, ft, temp, hft, hp, htemp, hn⟩ := unlinkScan_found s nm _ i p hscan
      obtain ⟨ino0, hino0, ho⟩ := w.bound i ft hft
      rw [hp, htemp] at hino0
      simp only [Option.some.injEq] at hino0
      subst hino0
      refine ⟨i, ft, temp, hft, by rw [hp]; exact htemp, hn, ho, ?_⟩
      unfold UnlinkFile
      simp only [hex, hscan, hp, htemp]
      simp

/-- What `UnlinkFile` of a name for which `IsFileExist` is true does in a
reachable state: it returns `EXECUTE_SUCCESS`, `FreeInodes` grows by 1, the
first entry of `UFDT` whose inode has the name is `NULL` afterwards, and that
inode is free again: `FileType` 0, empty `FileName`, `FileSize`,
`ActualFileSize`, `ReferenceCount` and `Permission` 0, no buffer,
`InodeNumber` as it was. -/
theorem UnlinkFile_existing (s : FS) (nm : List Nat) (hs : Reachable s)
    (hex : IsFileExist s nm = true) :
    ∃ s1 i ft ino ino1, UnlinkFile s (some nm) = some (EXECUTE_SUCCESS, s1) ∧
      s1.superobj.FreeInodes = s.superobj.FreeInodes + 1 ∧
      slot s.UFDT i = some ft ∧ s.head[ft.ptrinode]? = some ino ∧
      cstr ino.FileName = cstr nm ∧ ino.FileType = REGULARFILE ∧
      slot s1.UFDT i = none ∧
      s1.head[ft.ptrinode]? = some ino1 ∧
      ino1.FileType = 0 ∧ ino1.FileName = [] ∧ ino1.FileSize = 0 ∧ ino1.ActualFileSize = 0 ∧
      ino1.ReferenceCount = 0 ∧ ino1.Permission = 0 ∧ ino1.Buffer = none ∧
      ino1.InodeNumber = ino.InodeNumber := by
  have w := hs.wf
  obtain ⟨i, ft, temp, hft, htemp, hn, ho, hcall⟩ := UnlinkFile_ok w hex
  have hiu := slot_lt hft
  have hpl : ft.ptrinode < s.head.length := by
    by_contra hc
    simp [List.getElem?_eq_none (Nat.le_of_not_lt hc)] at htemp
  refine ⟨_, i, ft, temp, unlinkInode temp, hcall, rfl, hft, htemp, hn, ho.regular, ?_, ?_,
    rfl, rfl, rfl, rfl, rfl, rfl, rfl, rfl⟩
  · simp [unlinkState, slot_set, hiu]
  · simp [unlinkState, hpl]

/-- C14, the defect: `CreateFile` copies the name with `strcpy` into the 20
bytes of `FileName` without a check of its length.  Two calls of `CreateFile`
with one name of 24 bytes both return a descriptor (3 and 4): the string at
`FileName` of the first inode is the name followed by the character `2`, so
`IsFileExist` of the name is false before the second call.  Both inodes then
hold that string of 25 bytes; `IsFileExist` of it is true, `UnlinkFile` of it
returns `EXECUTE_SUCCESS` and frees the first inode, and `IsFileExist` of it
is still true afterwards. -/
theorem UnlinkFile_leaves_name :
    CreateFile StartAuxillaryDataInitialisation (some name24) 3 junk0 = some (3, ex24) ∧
    CreateFile ex24 (some name24) 3 junk0 = some (4, ex24x2) ∧
    IsFileExist ex24x2 name25 = true ∧
    UnlinkFile ex24x2 (some name25) = some (EXECUTE_SUCCESS, ex24x2u) ∧
    ex24x2u.superobj.FreeInodes = ex24x2.superobj.FreeInodes + 1 ∧
    slot ex24x2u.UFDT 3 = none ∧
    IsFileExist ex24x2u name25 = true :=
  ⟨by decide, by decide, by decide, by decide, by decide, by decide, by decide⟩

/-- C15: for every state and every name that is not `NULL`, `UnlinkFile`
returns `ERR_FILE_NOT_EXIST` exactly when `IsFileExist` of the name is false,
and it then returns in the state it was called in. -/
theorem UnlinkFile_not_exist (s : FS) (nm : List Nat) :
    (IsFileExist s nm = false → UnlinkFile s (some nm) = some (ERR_FILE_NOT_EXIST, s)) ∧
    (∀ s1, UnlinkFile s (some nm) = some (ERR_FILE_NOT_EXIST, s1) →
      IsFileExist s nm = false ∧ s1 = s) := by
  constructor
  · intro h
    unfold UnlinkFile
    simp only [h, if_true]
  · intro s1 h
    cases hex : IsFileExist s nm with
    | false =>
      unfold UnlinkFile at h
      simp only [hex, if_true, Option.some.injEq, Prod.mk.injEq, true_and] at h
      exact ⟨rfl, h.symm⟩
    | true =>
      exfalso
      unfold UnlinkFile at h
      simp only [hex] at h
      split at h
      · rename_i hc
        cases hc
      · split at h
        · simp at h
        · simp at h
        · split at h
          · simp at h
          · simp at h

theorem UnlinkFile_not_exist_witness :
    UnlinkFile exA (some (bytes "b.txt")) = some (ERR_FILE_NOT_EXIST, exA) ∧
    ∀ s1, UnlinkFile exA (some (bytes "a.txt")) ≠ some (ERR_FILE_NOT_EXIST, s1) :=
  ⟨(UnlinkFile_not_exist exA (bytes "b.txt")).1 (by decide),
    fun s1 h => absurd ((UnlinkFile_not_exist exA (bytes "a.txt")).2 s1 h).1 (by decide)⟩

/-! ## `IsFileExist`, `LsFile` and the boot state -/

/-- C16: for every state and every name, `IsFileExist` is true exactly when
some inode of the list has `FileType = REGULARFILE` and a `FileName` equal to
the name; an inode with `FileType` 0 never matches, so with free inodes only
the result is false, also for the empty name. The function returns a `bool`
and assigns nothing: the state is the same after the call. -/
theorem IsFileExist_spec (s : FS) (nm : List Nat) :
    (IsFileExist s nm = true ↔
      ∃ ino ∈ s.head, ino.FileType = REGULARFILE ∧ cstr ino.FileName = cstr nm) ∧
    ((∀ ino ∈ s.head, ino.FileType = 0) → IsFileExist s nm = false) ∧
    IsFileExist StartAuxillaryDataInitialisation [] = false := by
  have hiff : IsFileExist s nm = true ↔
      ∃ ino ∈ s.head, ino.FileType = REGULARFILE ∧ cstr ino.FileName = cstr nm := by
    unfold IsFileExist
    simp only [List.any_eq_true, Bool.and_eq_true, beq_iff_eq]
    constructor
    · rintro ⟨ino, hm, hn, hr⟩
      exact ⟨ino, hm, hr, hn.symm⟩
    · rintro ⟨ino, hm, hr, hn⟩
      exact ⟨ino, hm, hn.symm, hr⟩
  refine ⟨hiff, ?_, by decide⟩
  intro hfree
  rw [IsFileExist_false_iff, hiff]
  rintro ⟨ino, hm, hr, _⟩
  rw [hfree ino hm] at hr
  simp at hr

theorem IsFileExist_spec_witness :
    (∀ ino ∈ StartAuxillaryDataInitialisation.head, ino.FileType = 0) ∧
    IsFileExist StartAuxillaryDataInitialisation [] = false ∧
    IsFileExist exA (bytes "a.txt") = true ∧ IsFileExist exA [] = false :=
  ⟨by decide,
    (IsFileExist_spec StartAuxillaryDataInitialisation []).2.1 (by decide),
    (IsFileExist_spec exA (bytes "a.txt")).1.2
      ⟨createInode (newn 1) (bytes "a.txt") 3 junk0, by decide, by decide, by decide⟩,
    by decide⟩

/-- C18: after the boot sequence `TotalInodes = FreeInodes = MAXINODE = 5`, the
inode list holds 5 inodes numbered 1, 2, 3, 4, 5 in this order, each with
`FileType` 0, an empty `FileName`, `FileSize`, `ActualFileSize`,
`ReferenceCount` and `Permission` 0 and no buffer, and all
`MAXOPENFILES = 20` entries of `UFDT` are `NULL`. -/
theorem boot_state :
    StartAuxillaryDataInitialisation.superobj.TotalInodes = 5 ∧
    StartAuxillaryDataInitialisation.superobj.FreeInodes = 5 ∧
    MAXINODE = 5 ∧ MAXOPENFILES = 20 ∧
    StartAuxillaryDataInitialisation.head.length = 5 ∧
    StartAuxillaryDataInitialisation.head.map Inode.InodeNumber = [1, 2, 3, 4, 5] ∧
    (∀ ino ∈ StartAuxillaryDataInitialisation.head,
      ino.FileType = 0 ∧ ino.FileName = [] ∧ ino.FileSize = 0 ∧ ino.ActualFileSize = 0 ∧
      ino.ReferenceCount = 0 ∧ ino.Permission = 0 ∧ ino.Buffer = none) ∧
    StartAuxillaryDataInitialisation.UFDT.length = 20 ∧
    (∀ e ∈ StartAuxillaryDataInitialisation.UFDT, e = none) := by
  decide

/-! ## Descriptor range and the bounds of `ActualFileSize` -/

/-- The descriptor checks as far as they hold: a descriptor below 0 or above
`MAXOPENFILES` gives `ERR_INVALID_PARAMETER` in an unchanged state, in every
state; in a reachable state a descriptor in `0 .. MAXOPENFILES - 1` whose entry
is `NULL` gives `ERR_FILE_NOT_EXIST` (for `ReadFile` with a destination that is
not `NULL` and a size above 0, which are checked first). -/
theorem descriptor_checks (s : FS) (fd size : Int) (data : Option (List Nat)) :
    ((fd < 0 ∨ MAXOPENFILES < fd) →
      WriteFile s fd data size = some (ERR_INVALID_PARAMETER, s) ∧
      ReadFile s fd data size = some (ERR_INVALID_PARAMETER, s, data)) ∧
    (Reachable s → 0 ≤ fd → fd < MAXOPENFILES → slot s.UFDT fd.toNat = none →
      WriteFile s fd data size = some (ERR_FILE_NOT_EXIST, s) ∧
      ∀ dst, 0 < size → ReadFile s fd (some dst) size = some (ERR_FILE_NOT_EXIST, s, some dst)) := by
  constructor
  · intro h
    have h1 : fd < 0 ∨ fd > MAXOPENFILES := by omega
    constructor
    · unfold WriteFile
      simp only [h1, if_true]
    · unfold ReadFile
      simp only [h1, if_true]
  · intro _ h0 h20 hnone
    have h1 : ¬ (fd < 0 ∨ fd > MAXOPENFILES) := by omega
    have h2 : ¬ (MAXOPENFILES ≤ fd.toNat) := by
      simp only [MAXOPENFILES] at h20 ⊢
      omega
    constructor
    · unfold WriteFile
      simp only [h1, h2, hnone, if_false]
    · intro dst hsize
      have h3 : ¬ size ≤ 0 := by omega
      unfold ReadFile
      simp only [h1, h2, h3, hnone, if_false]

/-- C19, the defect: the check is `fd > MAXOPENFILES`, so the descriptor
`MAXOPENFILES = 20` passes it and both functions go on to read `UFDT[20]`,
outside the 20 entries of the array: the call has no defined result, where
`ERR_INVALID_PARAMETER` without a read of the table is due. Descriptors 21
and -1 are rejected. -/
theorem descriptor_MAXOPENFILES :
    exA.UFDT.length = 20 ∧
    WriteFile exA 20 (some (bytes "x")) 1 = none ∧
    ReadFile exA 20 (some [0]) 1 = none ∧
    WriteFile exA 21 (some (bytes "x")) 1 = some (ERR_INVALID_PARAMETER, exA) ∧
    ReadFile exA 21 (some [0]) 1 = some (ERR_INVALID_PARAMETER, exA, some [0]) ∧
    WriteFile exA (-1) (some (bytes "x")) 1 = some (ERR_INVALID_PARAMETER, exA) ∧
    ReadFile exA (-1) (some [0]) 1 = some (ERR_INVALID_PARAMETER, exA, some [0]) :=
  ⟨by decide, by decide, by decide, by decide, by decide, by decide, by decide⟩

/-- C20: in every reachable state (the boot state followed by any sequence
of calls of the four operations with any `int` arguments, zero and negative
sizes of `WriteFile` among them) every inode has
`0 ≤ ActualFileSize ≤ FileSize`.  A `WriteFile` with a negative size does not
return (`strncpy` with a count of at least `2 ^ 63` bytes), so it leads to no
state. -/
theorem actualSize_bounds (s : FS) (hs : Reachable s) :
    ∀ ino ∈ s.head, 0 ≤ ino.ActualFileSize ∧ ino.ActualFileSize ≤ ino.FileSize := by
  have w := hs.wf
  intro ino hm
  obtain ⟨k, hk⟩ := List.getElem?_of_mem hm
  rcases w.ftype k ino hk with h0 | h1
  · rw [w.freeInode k ino hk h0]
    simp [unlinkInode]
  · obtain ⟨_, ft, _, _, ho⟩ := regular_open w hk h1
    rw [ho.actual, ho.size]
    exact ho.wr

theorem actualSize_bounds_witness :
    Reachable ex45 ∧ (ex45.head[0]?).map Inode.ActualFileSize = some 45 ∧
    ∀ ino ∈ ex45.head, 0 ≤ ino.ActualFileSize ∧ ino.ActualFileSize ≤ ino.FileSize :=
  ⟨ex45_reachable, by decide, actualSize_bounds ex45 ex45_reachable⟩

/-! ## Sequential writes -/

theorem poke_take (mem : List Nat) (off : Nat) (b : List Nat) (h : off ≤ mem.length) :
    (poke mem off b).take off = mem.take off := by
  unfold poke
  have hl : (mem.take off).length = off := by
    rw [List.length_take]; omega
  rw [List.append_assoc, List.take_append_of_le_length (by omega),
    List.take_of_length_le (by omega)]

theorem take_drop_of_take_eq {l1 l2 : List Nat} {m : Nat} (h : l1.take m = l2.take m)
    (a b : Nat) (hab : a + b ≤ m) : (l1.drop a).take b = (l2.drop a).take b := by
  have h2 : l1.take (a + b) = l2.take (a + b) := by
    have e1 : l1.take (a + b) = (l1.take m).take (a + b) := by
      rw [List.take_take, Nat.min_eq_left hab]
    have e2 : l2.take (a + b) = (l2.take m).take (a + b) := by
      rw [List.take_take, Nat.min_eq_left hab]
    rw [e1, e2, h]
  rw [List.take_drop, List.take_drop, h2]

/-- A call of `WriteFile` that returns a value that is not negative passed
the checks `Writes`, returns the size and leaves the state `writeState`. -/
theorem WriteFile_returns {s s1 : FS} {fd size r : Int} {d : List Nat}
    (h : WriteFile s fd (some d) size = some (r, s1)) (hr : 0 ≤ r) :
    ∃ ft ino buf, Writes s fd size ft ino buf ∧ r = size ∧ toSizeT size = size.toNat ∧
      s1 = writeState s fd.toNat ft ino buf d size := by
  rcases WriteFile_inv h with ⟨hneg, _⟩ | ⟨ft, ino, buf, d0, hd, hw, hrs, hs1⟩
  · omega
  · simp only [Option.getD_some] at hd
    subst hd
    have hmin : INT_MIN ≤ size := by
      simp only [INT_MIN]; omega
    exact ⟨ft, ino, buf, hw, hrs, (hw.size_range hmin).2, hs1⟩

/-- C21 as stated fails: on the file of `exA` (descriptor 3, `WriteOffset` 0)
`WriteFile` of the 3 bytes 104, 0, 105 and then `WriteFile` of `"x"` with size
1 both return their size, and the buffer then starts with 104, 0, 0, 120: the
bytes at 0 .. 2 are not the first data. -/
theorem two_writes_with_nul :
    WriteFile exA 3 (some [104, 0, 105]) 3 = some (3, exNul) ∧
    WriteFile exNul 3 (some (bytes "x")) 1 = some (1, exNulX) ∧
    (bufferOf exNulX 3).map (List.take 4) = some [104, 0, 0, 120] ∧
    (bufferOf exNulX 3).map (List.take 4) ≠ some ([104, 0, 105] ++ bytes "x") :=
  ⟨by decide, by decide, by decide, by decide⟩

/-- C21, amended: in a reachable state, for an occupied entry `UFDT[fd]` with
write offset `w` and buffer `buf`, when `WriteFile (fd, d1, n1)` and then
`WriteFile (fd, d2, n2)` both return a value that is not negative, and the
first `n1` bytes of `d1` and the first `n2` bytes of `d2` are not NUL, then the
buffer afterwards holds the first `n1` bytes of `d1` at `w .. w + n1 - 1`,
the first `n2` bytes of `d2` at `w + n1 .. w + n1 + n2 - 1`, and below `w` the
bytes it held before the two calls. -/
theorem sequential_append (s s1 s2 : FS) (fd n1 n2 r1 r2 : Int) (d1 d2 : List Nat)
    (ft : FileTable) (ino : Inode) (buf : List Nat) (hs : Reachable s)
    (hft : slot s.UFDT fd.toNat = some ft) (hino : s.head[ft.ptrinode]? = some ino)
    (hbuf : ino.Buffer = some buf)
    (h1 : WriteFile s fd (some d1) n1 = some (r1, s1)) (hr1 : 0 ≤ r1)
    (h2 : WriteFile s1 fd (some d2) n2 = some (r2, s2)) (hr2 : 0 ≤ r2)
    (hd1 : n1.toNat ≤ (cstr d1).length) (hd2 : n2.toNat ≤ (cstr d2).length) :
    r1 = n1 ∧ r2 = n2 ∧
    ∃ b2, bufferOf s2 fd.toNat = some b2 ∧
      b2.take ft.WriteOffset.toNat = buf.take ft.WriteOffset.toNat ∧
      (b2.drop ft.WriteOffset.toNat).take n1.toNat = d1.take n1.toNat ∧
      (b2.drop (ft.WriteOffset.toNat + n1.toNat)).take n2.toNat = d2.take n2.toNat := by
  have w := hs.wf
  obtain ⟨fa, ia, ba, hwa, hra, hsa, hs1⟩ := WriteFile_returns h1 hr1
  have e1 : ft = fa := by
    have := hwa.entry; rw [hft] at this; simpa using this
  subst e1
  have e2 : ino = ia := by
    have := hwa.inode; rw [hino] at this; simpa using this
  subst e2
  have e3 : buf = ba := by
    have := hwa.buffer; rw [hbuf] at this; simpa using this
  subst e3
  obtain ⟨x0, hx0, ho⟩ := w.bound _ _ hft
  have hx : ino = x0 := by
    rw [hino] at hx0; simpa using hx0
  subst hx
  obtain ⟨b0, hb0, hbl⟩ := ho.buf
  have hb : buf = b0 := by
    rw [hbuf] at hb0; simpa using hb0
  subst hb
  have hfu := slot_lt hft
  have hpl : ft.ptrinode < s.head.length := by
    by_contra hc
    simp [List.getElem?_eq_none (Nat.le_of_not_lt hc)] at hino
  have hin1 := hwa.inside
  rw [hsa] at hin1
  have hft1 : slot s1.UFDT fd.toNat = some { ft with WriteOffset := ft.WriteOffset + n1 } := by
    rw [hs1]; simp [writeState, slot_set, hfu]
  have hino1 : s1.head[ft.ptrinode]? = some (writeInode ft ino buf d1 n1) := by
    rw [hs1]; simp [writeState, hpl]
  obtain ⟨fb, ib, bb, hwb, hrb, hsb, hs2⟩ := WriteFile_returns h2 hr2
  have e4 : fb = { ft with WriteOffset := ft.WriteOffset + n1 } := by
    have := hwb.entry; rw [hft1] at this; simpa using this.symm
  subst e4
  have e5 : ib = writeInode ft ino buf d1 n1 := by
    have := hwb.inode; rw [hino1] at this; simpa using this.symm
  subst e5
  have e6 : bb = poke buf ft.WriteOffset.toNat (strncpyBytes d1 (toSizeT n1)) := by
    have := hwb.buffer; simpa using this.symm
  subst e6
  have hfu1 : fd.toNat < s1.UFDT.length := slot_lt hft1
  have hpl1 : ft.ptrinode < s1.head.length := by
    by_contra hc
    simp [List.getElem?_eq_none (Nat.le_of_not_lt hc)] at hino1
  have hn1 : 0 ≤ n1 := by omega
  have hoff2 : (ft.WriteOffset + n1).toNat = ft.WriteOffset.toNat + n1.toNat := by
    have := hin1.1
    omega
  have hbuf2 : bufferOf s2 fd.toNat = some
      (poke (poke buf ft.WriteOffset.toNat (d1.take n1.toNat))
        (ft.WriteOffset.toNat + n1.toNat) (d2.take n2.toNat)) := by
    rw [hs2]
    simp [bufferOf, writeState, slot_set, hfu1, hpl1, hsa, hsb, hoff2,
      strncpyBytes_of_le d1 _ hd1, strncpyBytes_of_le d2 _ hd2]
  have hl1 : (d1.take n1.toNat).length = n1.toNat := by
    rw [List.length_take]
    have := cstr_length_le d1
    omega
  have hl2 : (d2.take n2.toNat).length = n2.toNat := by
    rw [List.length_take]
    have := cstr_length_le d2
    omega
  have hp1len : (poke buf ft.WriteOffset.toNat (d1.take n1.toNat)).length = buf.length :=
    poke_length _ _ _ (by rw [hl1, hbl]; exact hin1.2)
  have hin2 := hwb.inside
  rw [hsb] at hin2
  simp only [hoff2] at hin2
  have hagree := poke_take (poke buf ft.WriteOffset.toNat (d1.take n1.toNat))
    (ft.WriteOffset.toNat + n1.toNat) (d2.take n2.toNat)
    (by rw [hp1len, hbl]; exact hin1.2)
  refine ⟨hra, hrb, _, hbuf2, ?_, ?_, ?_⟩
  · have := take_drop_of_take_eq hagree 0 ft.WriteOffset.toNat (by omega)
    simp only [List.drop_zero] at this
    rw [this]
    exact poke_take _ _ _ (by rw [hbl]; omega)
  · rw [take_drop_of_take_eq hagree ft.WriteOffset.toNat n1.toNat (by omega)]
    have := poke_drop_take buf ft.WriteOffset.toNat (d1.take n1.toNat) (by rw [hbl]; omega)
    rw [hl1] at this
    exact this
  · have := poke_drop_take (poke buf ft.WriteOffset.toNat (d1.take n1.toNat))
      (ft.WriteOffset.toNat + n1.toNat) (d2.take n2.toNat) (by rw [hp1len, hbl]; exact hin1.2)
    rw [hl2] at this
    exact this

theorem sequential_append_witness :
    Reachable exA ∧
    slot exA.UFDT (3 : Int).toNat =
      some { ReadOffset := 0, WriteOffset := 0, Mode := 3, ptrinode := 0 } ∧
    exA.head[0]? = some (createInode (newn 1) (bytes "a.txt") 3 junk0) ∧
    WriteFile exA 3 (some (bytes "hello")) 5 = some (5, exH) ∧
    WriteFile exH 3 (some (bytes "world")) 5 = some (5, exHW) ∧
    (bufferOf exHW 3).map (List.take 10) = some (bytes "helloworld") ∧
    ∃ b2, bufferOf exHW (3 : Int).toNat = some b2 ∧
      b2.take (0 : Int).toNat = ((List.range MAXFILESIZE).map junk0).take (0 : Int).toNat ∧
      (b2.drop (0 : Int).toNat).take (5 : Int).toNat = (bytes "hello").take (5 : Int).toNat ∧
      (b2.drop ((0 : Int).toNat + (5 : Int).toNat)).take (5 : Int).toNat =
        (bytes "world").take (5 : Int).toNat :=
  ⟨exA_reachable, by decide, by decide, by decide, by decide, by decide,
    (sequential_append exA exH exHW 3 5 5 5 5 (bytes "hello") (bytes "world")
      { ReadOffset := 0, WriteOffset := 0, Mode := 3, ptrinode := 0 }
      (createInode (newn 1) (bytes "a.txt") 3 junk0) ((List.range MAXFILESIZE).map junk0)
      exA_reachable (by decide) (by decide) (by decide) (by decide) (by decide) (by decide)
      (by decide) (by decide) (by decide)).2.2⟩

/-! ## Order of the checks and choice of entry and inode in `CreateFile` -/

theorem freeInodes_nonneg {s : FS} (w : WF s) : 0 ≤ s.superobj.FreeInodes := by
  rw [w.free]
  exact Int.ofNat_nonneg _

/-- C22: `CreateFile` reports the first failing check. For every state: a
permission outside 1, 2, 3 gives `ERR_INVALID_PARAMETER`, whatever
`FreeInodes` is and whether the name exists or not; with a name and a
permission 1, 2 or 3, `FreeInodes = 0` gives `ERR_NO_INODES`, also when the
name exists; and `ERR_FILE_ALREADY_EXIST` is returned only with a permission
1, 2 or 3, an existing name and `FreeInodes` other than 0, which is
`FreeInodes > 0` in a reachable state. -/
theorem CreateFile_check_order (s : FS) (permission : Int) (junk : Nat → Nat) :
    ((permission < 1 ∨ 3 < permission) →
      ∀ name, CreateFile s name permission junk = some (ERR_INVALID_PARAMETER, s)) ∧
    ((permission = 1 ∨ permission = 2 ∨ permission = 3) → s.superobj.FreeInodes = 0 →
      ∀ nm, CreateFile s (some nm) permission junk = some (ERR_NO_INODES, s)) ∧
    (∀ name s1, CreateFile s name permission junk = some (ERR_FILE_ALREADY_EXIST, s1) →
      (permission = 1 ∨ permission = 2 ∨ permission = 3) ∧
      (∃ nm, name = some nm ∧ IsFileExist s nm = true) ∧
      s.superobj.FreeInodes ≠ 0 ∧ (Reachable s → 0 < s.superobj.FreeInodes)) := by
  refine ⟨?_, ?_, ?_⟩
  · intro hp name
    unfold CreateFile
    cases name with
    | none => rfl
    | some nm =>
      have h1 : permission < 1 ∨ permission > 3 := by omega
      simp only [h1, if_true]
  · intro hp hfree nm
    have h1 : ¬ (permission < 1 ∨ permission > 3) := by omega
    unfold CreateFile
    simp only [h1, hfree, if_true, if_false]
  · intro name s1 h
    unfold CreateFile at h
    split at h
    · simp at h
    · rename_i nm
      split at h
      · simp at h
      · rename_i hp
        split at h
        · simp at h
        · rename_i hfree
          split at h
          · rename_i hex
            refine ⟨by omega, ⟨nm, rfl, hex⟩, hfree, ?_⟩
            intro hs
            have := freeInodes_nonneg hs.wf
            omega
          · split at h
            · simp at h
            · split at h
              · simp at h
              · split at h
                · simp at h
                · split at h
                  · simp only [Option.some.injEq, Prod.mk.injEq, ERR_FILE_ALREADY_EXIST] at h
                    omega
                  · simp at h

theorem CreateFile_check_order_witness :
    (∀ name, CreateFile exA name 0 junk0 = some (ERR_INVALID_PARAMETER, exA)) ∧
    CreateFile exA (some (bytes "a.txt")) 0 junk0 = some (ERR_INVALID_PARAMETER, exA) ∧
    (∀ (s1 : FS), CreateFile exA (some (bytes "a.txt")) 3 junk0 =
        some (ERR_FILE_ALREADY_EXIST, s1) → 0 < exA.superobj.FreeInodes) :=
  ⟨(CreateFile_check_order exA 0 junk0).1 (by decide),
    (CreateFile_check_order exA 0 junk0).1 (by decide) (some (bytes "a.txt")),
    fun s1 h => ((CreateFile_check_order exA 3 junk0).2.2 _ s1 h).2.2.2 exA_reachable⟩

/-- C23: in a reachable state the entries 0, 1 and 2 of `UFDT` are `NULL`. When
`CreateFile` returns a descriptor `d`, not negative, then `d` is the smallest
index in `3 .. MAXOPENFILES - 1` whose entry was `NULL`, the new entry points
to the first inode of the list whose `FileType` was 0, and every other entry
of `UFDT` and every other inode is unchanged. -/
theorem CreateFile_choice (s : FS) (hs : Reachable s) :
    (∀ i, i < 3 → slot s.UFDT i = none) ∧
    ∀ name permission junk d s1, CreateFile s name permission junk = some (d, s1) → 0 ≤ d →
      3 ≤ d ∧ d < MAXOPENFILES ∧ slot s.UFDT d.toNat = none ∧
      (∀ j, 3 ≤ j → j < d.toNat → slot s.UFDT j ≠ none) ∧
      ∃ ft temp, slot s1.UFDT d.toNat = some ft ∧
        s.head[ft.ptrinode]? = some temp ∧ temp.FileType = 0 ∧
        (∀ (k : Nat) (ino : Inode), k < ft.ptrinode → s.head[k]? = some ino →
          ino.FileType ≠ 0) ∧
        (∀ j, j ≠ d.toNat → slot s1.UFDT j = slot s.UFDT j) ∧
        (∀ k : Nat, k ≠ ft.ptrinode → s1.head[k]? = s.head[k]?) := by
  have w := hs.wf
  refine ⟨w.reserved, ?_⟩
  intro name permission junk d s1 h hd
  rcases CreateFile_inv h with ⟨hneg, _⟩ | ⟨nm, t, i, temp, _, hc, hri, hs1⟩
  · omega
  · obtain ⟨hfree, htlt, hi3, hi20, hinone, hfirst, hsmall⟩ := hc.facts
    have hiu : i < s.UFDT.length := by rw [w.ufdtLen]; exact hi20
    have hdi : d.toNat = i := by omega
    subst hs1
    rw [hdi]
    refine ⟨by omega, by simp only [MAXOPENFILES] at hi20 ⊢; omega, hinone, hsmall,
      { ReadOffset := 0, WriteOffset := 0, Mode := permission, ptrinode := t }, temp,
      by simp [createState, slot_set, hiu], hc.at_t, hfree, hfirst, ?_, ?_⟩
    · intro j hj
      simp only [createState, slot_set, hiu, if_true]
      rw [if_neg (fun hc => hj hc.symm)]
    · intro k hk
      simp only [createState]
      exact List.getElem?_set_ne (fun hc => hk hc.symm)

theorem CreateFile_choice_witness :
    Reachable exA ∧
    CreateFile exA (some (bytes "b.txt")) 1 junk0 = some (4, exAB) ∧
    (∀ i, i < 3 → slot exA.UFDT i = none) ∧
    (3 : Int) ≤ 4 ∧ (4 : Int) < MAXOPENFILES ∧ slot exA.UFDT (4 : Int).toNat = none ∧
    (∀ j, 3 ≤ j → j < (4 : Int).toNat → slot exA.UFDT j ≠ none) ∧
    ∃ ft temp, slot exAB.UFDT (4 : Int).toNat = some ft ∧
      exA.head[ft.ptrinode]? = some temp ∧ temp.FileType = 0 ∧
      (∀ (k : Nat) (ino : Inode), k < ft.ptrinode → exA.head[k]? = some ino →
        ino.FileType ≠ 0) ∧
      (∀ j, j ≠ (4 : Int).toNat → slot exAB.UFDT j = slot exA.UFDT j) ∧
      (∀ k : Nat, k ≠ ft.ptrinode → exAB.head[k]? = exA.head[k]?) :=
  ⟨exA_reachable, by decide, (CreateFile_choice exA exA_reachable).1,
    (CreateFile_choice exA exA_reachable).2 (some (bytes "b.txt")) 1 junk0 4 exAB
      (by decide) (by decide)⟩

/-! ## What `WriteFile` and `ReadFile` leave unchanged -/

theorem getElem?_lt {l : List Inode} {k : Nat} {x : Inode} (h : l[k]? = some x) :
    k < l.length := by
  by_contra hc
  simp [List.getElem?_eq_none (Nat.le_of_not_lt hc)] at h

theorem writeState_frame {s : FS} (w : WF s) {fd size : Int} {ft : FileTable} {ino : Inode}
    {buf : List Nat} (d : List Nat) (h : Writes s fd size ft ino buf) :
    (writeState s fd.toNat ft ino buf d size).superobj = s.superobj ∧
    (∀ (k : Nat) (x : Inode), s.head[k]? = some x →
      ∃ x1, (writeState s fd.toNat ft ino buf d size).head[k]? = some x1 ∧ sameMeta x x1) ∧
    (writeState s fd.toNat ft ino buf d size).head.length = s.head.length ∧
    (∀ j, (slot (writeState s fd.toNat ft ino buf d size).UFDT j).isSome =
      (slot s.UFDT j).isSome) ∧
    (∀ j fj, slot s.UFDT j = some fj →
      ∃ f1, slot (writeState s fd.toNat ft ino buf d size).UFDT j = some f1 ∧
        f1.ReadOffset = fj.ReadOffset ∧ f1.Mode = fj.Mode ∧ f1.ptrinode = fj.ptrinode) ∧
    (∀ j, j ≠ fd.toNat →
      slot (writeState s fd.toNat ft ino buf d size).UFDT j = slot s.UFDT j ∧
      ∀ fj, slot s.UFDT j = some fj →
        (writeState s fd.toNat ft ino buf d size).head[fj.ptrinode]? =
          s.head[fj.ptrinode]?) ∧
    (∀ k : Nat, k ≠ ft.ptrinode →
      (writeState s fd.toNat ft ino buf d size).head[k]? = s.head[k]?) := by
  have hfu := slot_lt h.entry
  have hpl := getElem?_lt h.inode
  have hslot : ∀ j, slot (writeState s fd.toNat ft ino buf d size).UFDT j =
      if fd.toNat = j then some { ft with WriteOffset := ft.WriteOffset + size }
      else slot s.UFDT j := by
    intro j
    simp only [writeState, slot_set, hfu, if_true]
  have hhead : ∀ k, (writeState s fd.toNat ft ino buf d size).head[k]? =
      if ft.ptrinode = k then some (writeInode ft ino buf d size) else s.head[k]? := by
    intro k
    simp only [writeState, List.getElem?_set, hpl, if_true]
  refine ⟨rfl, ?_, by simp [writeState], ?_, ?_, ?_, ?_⟩
  · intro k x hk
    rw [hhead]
    split
    · rename_i hpk
      subst hpk
      rw [h.inode] at hk
      simp only [Option.some.injEq] at hk
      subst hk
      exact ⟨_, rfl, rfl, rfl, rfl, rfl, rfl, rfl⟩
    · exact ⟨x, hk, rfl, rfl, rfl, rfl, rfl, rfl⟩
  · intro j
    rw [hslot]
    split
    · rename_i hfj
      subst hfj
      rw [h.entry]
      rfl
    · rfl
  · intro j fj hj
    rw [hslot]
    split
    · rename_i hfj
      subst hfj
      rw [h.entry] at hj
      simp only [Option.some.injEq] at hj
      subst hj
      exact ⟨_, rfl, rfl, rfl, rfl⟩
    · exact ⟨fj, hj, rfl, rfl, rfl⟩
  · intro j hj
    refine ⟨by rw [hslot, if_neg (fun hc => hj hc.symm)], ?_⟩
    intro fj hfj
    rw [hhead, if_neg]
    intro hc
    exact hj (w.inj _ _ _ _ h.entry hfj hc).symm
  · intro k hk
    rw [hhead, if_neg (fun hc => hk hc.symm)]

theorem readState_frame {s : FS} {fd size : Int} {dst : List Nat} {ft : FileTable}
    {ino : Inode} {buf : List Nat} (h : Reads s fd size dst ft ino buf) :
    (readState s fd.toNat ft size).superobj = s.superobj ∧
    (readState s fd.toNat ft size).head = s.head ∧
    (∀ j, (slot (readState s fd.toNat ft size).UFDT j).isSome = (slot s.UFDT j).isSome) ∧
    (∀ j fj, slot s.UFDT j = some fj →
      ∃ f1, slot (readState s fd.toNat ft size).UFDT j = some f1 ∧
        f1.WriteOffset = fj.WriteOffset ∧ f1.Mode = fj.Mode ∧ f1.ptrinode = fj.ptrinode) ∧
    (∀ j, j ≠ fd.toNat → slot (readState s fd.toNat ft size).UFDT j = slot s.UFDT j) := by
  have hfu := slot_lt h.entry
  have hslot : ∀ j, slot (readState s fd.toNat ft size).UFDT j =
      if fd.toNat = j then some { ft with ReadOffset := ft.ReadOffset + size }
      else slot s.UFDT j := by
    intro j
    simp only [readState, slot_set, hfu, if_true]
  refine ⟨rfl, rfl, ?_, ?_, ?_⟩
  · intro j
    rw [hslot]
    split
    · rename_i hfj
      subst hfj
      rw [h.entry]
      rfl
    · rfl
  · intro j fj hj
    rw [hslot]
    split
    · rename_i hfj
      subst hfj
      rw [h.entry] at hj
      simp only [Option.some.injEq] at hj
      subst hj
      exact ⟨_, rfl, rfl, rfl, rfl⟩
    · exact ⟨fj, hj, rfl, rfl, rfl⟩
  · intro j hj
    rw [hslot, if_neg (fun hc => hj hc.symm)]

theorem sameMeta_refl (x : Inode) : sameMeta x x := ⟨rfl, rfl, rfl, rfl, rfl, rfl⟩

/-- C24: in a reachable state, a call of `WriteFile` or `ReadFile` that returns
leaves `superobj` (so `FreeInodes`), the `FileType`, `FileName`, `InodeNumber`,
`FileSize`, `ReferenceCount` and `Permission` of every inode, and the set of
occupied entries of `UFDT` unchanged. `ReadFile` leaves the whole inode list
(so every `ActualFileSize` and buffer) and every `WriteOffset` unchanged;
`WriteFile` leaves every `ReadOffset` unchanged, every entry other than
`UFDT[fd]`, and every inode, free or regular, other than the one `UFDT[fd]`
points to, in all its fields and its buffer. `CreateFile` turns no regular
inode into a free one and `UnlinkFile` no free inode into a regular one. -/
theorem write_read_frame (s : FS) (hs : Reachable s) :
    (∀ fd data size r s1, WriteFile s fd data size = some (r, s1) →
      s1.superobj = s.superobj ∧
      (∀ (k : Nat) (x : Inode), s.head[k]? = some x →
        ∃ x1, s1.head[k]? = some x1 ∧ sameMeta x x1) ∧
      s1.head.length = s.head.length ∧
      (∀ j, (slot s1.UFDT j).isSome = (slot s.UFDT j).isSome) ∧
      (∀ j fj, slot s.UFDT j = some fj →
        ∃ f1, slot s1.UFDT j = some f1 ∧
          f1.ReadOffset = fj.ReadOffset ∧ f1.Mode = fj.Mode ∧ f1.ptrinode = fj.ptrinode) ∧
      (∀ j, j ≠ fd.toNat → slot s1.UFDT j = slot s.UFDT j ∧
        ∀ fj, slot s.UFDT j = some fj → s1.head[fj.ptrinode]? = s.head[fj.ptrinode]?) ∧
      (∀ k : Nat, (∀ ft, slot s.UFDT fd.toNat = some ft → k ≠ ft.ptrinode) →
        s1.head[k]? = s.head[k]?)) ∧
    (∀ fd data size r s1 out, ReadFile s fd data size = some (r, s1, out) →
      s1.superobj = s.superobj ∧ s1.head = s.head ∧
      (∀ j, (slot s1.UFDT j).isSome = (slot s.UFDT j).isSome) ∧
      (∀ j fj, slot s.UFDT j = some fj →
        ∃ f1, slot s1.UFDT j = some f1 ∧
          f1.WriteOffset = fj.WriteOffset ∧ f1.Mode = fj.Mode ∧ f1.ptrinode = fj.ptrinode) ∧
      (∀ j, j ≠ fd.toNat → slot s1.UFDT j = slot s.UFDT j)) ∧
    (∀ name permission junk r s1, CreateFile s name permission junk = some (r, s1) →
      ∀ (k : Nat) (x : Inode), s.head[k]? = some x → x.FileType = REGULARFILE →
        ∃ x1, s1.head[k]? = some x1 ∧ x1.FileType = REGULARFILE) ∧
    (∀ name r s1, UnlinkFile s name = some (r, s1) →
      ∀ (k : Nat) (x1 : Inode), s1.head[k]? = some x1 → x1.FileType = REGULARFILE →
        ∃ x, s.head[k]? = some x ∧ x.FileType = REGULARFILE) := by
  have w := hs.wf
  refine ⟨?_, ?_, ?_, ?_⟩
  · intro fd data size r s1 h
    rcases WriteFile_inv h with ⟨_, rfl⟩ | ⟨ft, ino, buf, d, _, hw, _, rfl⟩
    · exact ⟨rfl, fun k x hk => ⟨x, hk, sameMeta_refl x⟩, rfl, fun _ => rfl,
        fun j fj hj => ⟨fj, hj, rfl, rfl, rfl⟩, fun j _ => ⟨rfl, fun _ _ => rfl⟩,
        fun _ _ => rfl⟩
    · obtain ⟨f1, f2, f3, f4, f5, f6, f7⟩ := writeState_frame w d hw
      exact ⟨f1, f2, f3, f4, f5, f6, fun k hk => f7 k (hk ft hw.entry)⟩
  · intro fd data size r s1 out h
    rcases ReadFile_inv h with ⟨_, rfl, _⟩ | ⟨dst, ft, ino, buf, _, hr, _, rfl, _⟩
    · exact ⟨rfl, rfl, fun _ => rfl, fun j fj hj => ⟨fj, hj, rfl, rfl, rfl⟩, fun _ _ => rfl⟩
    · exact readState_frame hr
  · intro name permission junk r s1 h k x hk hreg
    rcases CreateFile_inv h with ⟨_, rfl⟩ | ⟨nm, t, i, temp, _, hc, _, rfl⟩
    · exact ⟨x, hk, hreg⟩
    · obtain ⟨_, htlt, _⟩ := hc.facts
      simp only [createState, List.getElem?_set, htlt, if_true]
      split
      · exact ⟨_, rfl, rfl⟩
      · exact ⟨x, hk, hreg⟩
  · intro name r s1 h k x1 hk hreg
    rcases UnlinkFile_inv h with ⟨_, rfl⟩ | ⟨_, nm, _, _, ⟨_, rfl⟩ | ⟨i, p, temp, _, htemp, rfl⟩⟩
    · exact ⟨x1, hk, hreg⟩
    · exact ⟨x1, hk, hreg⟩
    · have hpl := getElem?_lt htemp
      simp only [unlinkState, List.getElem?_set, hpl, if_true] at hk
      split at hk
      · simp only [Option.some.injEq] at hk
        rw [← hk] at hreg
        simp [unlinkInode] at hreg
      · exact ⟨x1, hk, hreg⟩

theorem write_read_frame_witness :
    Reachable exA ∧
    WriteFile exA 3 (some (bytes "hello")) 5 = some (5, exH) ∧
    exH.superobj = exA.superobj ∧ exH.head.length = exA.head.length ∧
    (∀ j, (slot exH.UFDT j).isSome = (slot exA.UFDT j).isSome) ∧
    (∀ k : Nat, (∀ ft, slot exA.UFDT (3 : Int).toNat = some ft → k ≠ ft.ptrinode) →
      exH.head[k]? = exA.head[k]?) :=
  ⟨exA_reachable, by decide,
    ((write_read_frame exA exA_reachable).1 3 (some (bytes "hello")) 5 5 exH (by decide)).1,
    ((write_read_frame exA exA_reachable).1 3 (some (bytes "hello")) 5 5 exH (by decide)).2.2.1,
    ((write_read_frame exA exA_reachable).1 3 (some (bytes "hello")) 5 5 exH
      (by decide)).2.2.2.1,
    ((write_read_frame exA exA_reachable).1 3 (some (bytes "hello")) 5 5 exH
      (by decide)).2.2.2.2.2.2⟩

/-! ## Invariants of the inode list and of `UFDT` -/

/-- C25, the defect: `CreateFile` copies the name with `strcpy` into the 20
bytes of `FileName` without a check of its length, and `InodeNumber` is the
member behind `FileName`.  In the boot state `CreateFile` of a name of 20
bytes returns descriptor 3 and the NUL that ends the copy sets the lowest
byte of `InodeNumber`: the number of the first inode goes from 1 to 0.  With
a name of 24 bytes the four bytes of `InodeNumber` are the characters `0003`
of the name, the number 858796080; with 21 bytes of which the last is 2 the
number is 2, that of the second inode.  `UnlinkFile` does not restore it. -/
theorem CreateFile_overwrites_InodeNumber :
    StartAuxillaryDataInitialisation.head.map Inode.InodeNumber = [1, 2, 3, 4, 5] ∧
    (cstr name20).length = 20 ∧
    CreateFile StartAuxillaryDataInitialisation (some name20) 3 junk0 = some (3, ex20) ∧
    ex20.head.length = MAXINODE ∧
    ex20.head.map Inode.InodeNumber = [0, 2, 3, 4, 5] ∧
    UnlinkFile ex20 (some name20) = some (EXECUTE_SUCCESS, ex20u) ∧
    ex20u.head.map Inode.InodeNumber = [0, 2, 3, 4, 5] ∧
    CreateFile StartAuxillaryDataInitialisation (some name24) 3 junk0 = some (3, ex24) ∧
    ex24.head.map Inode.InodeNumber = [858796080, 2, 3, 4, 5] ∧
    ((exec StartAuxillaryDataInitialisation [.create (some (name20 ++ [2])) 3 junk0]).head.map
      Inode.InodeNumber) = [2, 2, 3, 4, 5] :=
  ⟨by decide, by decide, by decide, by decide, by decide, by decide, by decide, by decide,
    by decide, by decide⟩

/-- The correspondence of entries and inodes in a reachable state: every
occupied entry of `UFDT` points to an inode with `FileType = REGULARFILE`,
every such inode is pointed to by exactly one occupied entry, and a call of
`UnlinkFile` that returns `EXECUTE_SUCCESS` has found an entry whose inode has
the name and torn that file down: the entry is `NULL` afterwards and
`FreeInodes` is one more. -/
theorem slots_inodes_correspond (s : FS) (hs : Reachable s) :
    (∀ i ft, slot s.UFDT i = some ft →
      ∃ ino, s.head[ft.ptrinode]? = some ino ∧ ino.FileType = REGULARFILE) ∧
    (∀ (k : Nat) (ino : Inode), s.head[k]? = some ino → ino.FileType = REGULARFILE →
      ∃ i ft, slot s.UFDT i = some ft ∧ ft.ptrinode = k ∧
        ∀ j fj, slot s.UFDT j = some fj → fj.ptrinode = k → j = i) ∧
    (∀ name s1, UnlinkFile s name = some (EXECUTE_SUCCESS, s1) →
      ∃ nm i ft ino, name = some nm ∧ slot s.UFDT i = some ft ∧
        s.head[ft.ptrinode]? = some ino ∧ cstr ino.FileName = cstr nm ∧
        ino.FileType = REGULARFILE ∧ slot s1.UFDT i = none ∧
        s1.superobj.FreeInodes = s.superobj.FreeInodes + 1) := by
  have w := hs.wf
  refine ⟨?_, ?_, ?_⟩
  · intro i ft hft
    obtain ⟨ino, hino, ho⟩ := w.bound i ft hft
    exact ⟨ino, hino, ho.regular⟩
  · intro k ino hk hreg
    obtain ⟨i, ft, hft, hp⟩ := w.surj k ino hk hreg
    exact ⟨i, ft, hft, hp, fun j fj hfj hpj => w.inj j i fj ft hfj hft (hpj.trans hp.symm)⟩
  · intro name s1 h
    rcases UnlinkFile_inv h with ⟨hneg, _⟩ | ⟨_, nm, hname, hex, _⟩
    · simp only [EXECUTE_SUCCESS] at hneg
      omega
    · obtain ⟨i, ft, temp, hft, htemp, hn, ho, hcall⟩ := UnlinkFile_ok w hex
      rw [hname, hcall] at h
      simp only [Option.some.injEq, Prod.mk.injEq, true_and] at h
      subst h
      have hiu := slot_lt hft
      refine ⟨nm, i, ft, temp, hname, hft, htemp, hn, ho.regular, ?_, rfl⟩
      simp [unlinkState, slot_set, hiu]

/-- C26, the defect: `CreateFile` copies the name with `strcpy` into the 20
bytes of `FileName` without a check of its length.  After `CreateFile` of a
name of 24 bytes the string at `FileName` is the name followed by the
character `2`, so `IsFileExist` of the name is false and a second
`CreateFile` of the same name returns a descriptor too: the inodes at the
positions 0 and 1 are then both regular, bound to the entries 3 and 4, and
have the same `FileName`. -/
theorem two_inodes_one_name :
    CreateFile StartAuxillaryDataInitialisation (some name24) 3 junk0 = some (3, ex24) ∧
    IsFileExist ex24 name24 = false ∧
    CreateFile ex24 (some name24) 3 junk0 = some (4, ex24x2) ∧
    (slot ex24x2.UFDT 3).map FileTable.ptrinode = some 0 ∧
    (slot ex24x2.UFDT 4).map FileTable.ptrinode = some 1 ∧
    (ex24x2.head[0]?).map Inode.FileType = some REGULARFILE ∧
    (ex24x2.head[1]?).map Inode.FileType = some REGULARFILE ∧
    (ex24x2.head[0]?).map Inode.FileName = some name25 ∧
    (ex24x2.head[1]?).map Inode.FileName = some name25 :=
  ⟨by decide, by decide, by decide, by decide, by decide, by decide, by decide, by decide,
    by decide⟩

/-- C27: in every reachable state, for every occupied entry of `UFDT`, the
`WriteOffset` of the entry is the `ActualFileSize` of the inode it points to. -/
theorem writeOffset_eq_actualSize (s : FS) (hs : Reachable s) (i : Nat) (ft : FileTable)
    (hft : slot s.UFDT i = some ft) :
    ∃ ino, s.head[ft.ptrinode]? = some ino ∧ ft.WriteOffset = ino.ActualFileSize := by
  obtain ⟨ino, hino, ho⟩ := hs.wf.bound i ft hft
  exact ⟨ino, hino, ho.actual.symm⟩

theorem writeOffset_eq_actualSize_witness :
    Reachable exH ∧
    slot exH.UFDT 3 = some { ReadOffset := 0, WriteOffset := 5, Mode := 3, ptrinode := 0 } ∧
    ∃ ino, exH.head[0]? = some ino ∧ (5 : Int) = ino.ActualFileSize :=
  ⟨exA_reachable.exec _ (by simp [Op.typed, isInt, INT_MIN, INT_MAX]), by decide,
    writeOffset_eq_actualSize exH
      (exA_reachable.exec _ (by simp [Op.typed, isInt, INT_MIN, INT_MAX])) 3
      { ReadOffset := 0, WriteOffset := 5, Mode := 3, ptrinode := 0 } (by decide)⟩

/-! ## Descriptor capacity, and create followed by unlink -/

theorem occupied_card_le {s : FS} (w : WF s) :
    ((Finset.range MAXOPENFILES).filter (fun i => (slot s.UFDT i).isSome)).card
      ≤ MAXINODE := by
  let f : Nat → Nat := fun i =>
    match slot s.UFDT i with
    | some ft => ft.ptrinode
    | none => 0
  have hmaps : ∀ i ∈ (Finset.range MAXOPENFILES).filter (fun i => (slot s.UFDT i).isSome),
      f i ∈ Finset.range MAXINODE := by
    intro i hi
    rw [Finset.mem_filter] at hi
    obtain ⟨ft, hft⟩ := Option.isSome_iff_exists.1 hi.2
    obtain ⟨ino, hino, _⟩ := w.bound i ft hft
    have hlt : ft.ptrinode < s.head.length := by
      by_contra hge
      simp [List.getElem?_eq_none (Nat.le_of_not_lt hge)] at hino
    rw [w.headLen] at hlt
    simp only [f, hft, Finset.mem_range]
    exact hlt
  have hinj : Set.InjOn f
      ((Finset.range MAXOPENFILES).filter (fun i => (slot s.UFDT i).isSome) : Finset Nat) := by
    intro x hx y hy hxy
    rw [Finset.mem_coe, Finset.mem_filter] at hx hy
    obtain ⟨fx, hfx⟩ := Option.isSome_iff_exists.1 hx.2
    obtain ⟨fy, hfy⟩ := Option.isSome_iff_exists.1 hy.2
    simp only [f, hfx, hfy] at hxy
    exact w.inj x y fx fy hfx hfy hxy
  have := Finset.card_le_card_of_injOn f hmaps hinj
  simpa using this

/-- C28: in a reachable state at most `MAXINODE = 5` entries of `UFDT` are
occupied, none of them among the entries 0, 1 and 2, so one of the 17 entries
`3 .. 19` is `NULL` and `CreateFile` never returns `ERR_MAX_FILES_OPEN`. -/
theorem never_max_files_open (s : FS) (hs : Reachable s) :
    ((Finset.range MAXOPENFILES).filter (fun i => (slot s.UFDT i).isSome)).card ≤ MAXINODE ∧
    MAXINODE = 5 ∧ MAXOPENFILES = 20 ∧
    (∃ i, 3 ≤ i ∧ i < MAXOPENFILES ∧ slot s.UFDT i = none) ∧
    ∀ name permission junk s1,
      CreateFile s name permission junk ≠ some (ERR_MAX_FILES_OPEN, s1) := by
  have w := hs.wf
  obtain ⟨i, hi⟩ := exists_free_entry w
  have hmem := List.mem_of_find?_eq_some hi
  have hnone := List.find?_some hi
  simp only [List.mem_range'_1] at hmem
  refine ⟨occupied_card_le w, rfl, rfl, ⟨i, hmem.1, by have := hmem.2; omega, by simpa using hnone⟩, ?_⟩
  intro name permission junk s1 h
  unfold CreateFile at h
  split at h
  · simp at h
  · split at h
    · simp at h
    · split at h
      · simp at h
      · split at h
        · simp at h
        · split at h
          · simp at h
          · split at h
            · rename_i hfind
              rw [hi] at hfind
              cases hfind
            · split at h
              · simp at h
              · split at h
                · simp only [Option.some.injEq, Prod.mk.injEq, ERR_MAX_FILES_OPEN] at h
                  omega
                · simp at h

theorem never_max_files_open_witness :
    Reachable exAB ∧
    ((Finset.range MAXOPENFILES).filter (fun i => (slot exAB.UFDT i).isSome)).card
      ≤ MAXINODE ∧
    MAXINODE = 5 ∧ MAXOPENFILES = 20 ∧
    (∃ i, 3 ≤ i ∧ i < MAXOPENFILES ∧ slot exAB.UFDT i = none) ∧
    ∀ name permission junk s1,
      CreateFile exAB name permission junk ≠ some (ERR_MAX_FILES_OPEN, s1) :=
  ⟨exA_reachable.exec _ (by simp [Op.typed, isInt, INT_MIN, INT_MAX]),
    never_max_files_open exAB
      (exA_reachable.exec _ (by simp [Op.typed, isInt, INT_MIN, INT_MAX]))⟩

/-- C29, the defect: `CreateFile` copies the name with `strcpy` into the 20
bytes of `FileName` without a check of its length.  In the boot state
`CreateFile` of a name of 20 bytes returns descriptor 3 and `UnlinkFile` of
the name then returns `EXECUTE_SUCCESS`, in a state that is not the boot
state: `InodeNumber` of the first inode is 0, where it was 1.  After
`CreateFile` of a name of 24 bytes, `UnlinkFile` of the name returns
`ERR_FILE_NOT_EXIST` and the file stays: the string at `FileName` is the name
followed by the character `2`. -/
theorem create_unlink_changes_state :
    (cstr name20).length = 20 ∧
    CreateFile StartAuxillaryDataInitialisation (some name20) 3 junk0 = some (3, ex20) ∧
    UnlinkFile ex20 (some name20) = some (EXECUTE_SUCCESS, ex20u) ∧
    ex20u ≠ StartAuxillaryDataInitialisation ∧
    (StartAuxillaryDataInitialisation.head[0]?).map Inode.InodeNumber = some 1 ∧
    (ex20u.head[0]?).map Inode.InodeNumber = some 0 ∧
    CreateFile StartAuxillaryDataInitialisation (some name24) 3 junk0 = some (3, ex24) ∧
    UnlinkFile ex24 (some name24) = some (ERR_FILE_NOT_EXIST, ex24) ∧
    ex24 ≠ StartAuxillaryDataInitialisation :=
  ⟨by decide, by decide, by decide, by decide, by decide, by decide, by decide, by decide,
    by decide⟩

end CVFS
